import Mathlib

/-!
# Site tariffs: green share, effective price / CO2, rate alignment, effective forecast,
solar details

A shallow embedding of `core/site_tariffs.go`.

Conventions of the embedding:

* `time.Time` is an instant, counted in nanoseconds (`Int`); `time.Duration` is a number of
  nanoseconds (`Int`), and `Duration.Seconds()` is that number divided by `10^9`.
* finite `float64` values are exact rationals (`ℚ`): rounding and overflow are not modelled.
  Where the source divides by a value that can be zero, the IEEE result (`NaN`, `±Inf`) is
  modelled explicitly (`Float64`, `fdiv`).
* a Go slice is a `List`; a slice updated through a pointer is returned by the function.
-/

namespace SiteTariffs

/-! ## Data model -/

/-- An `api.Rate`: a slot `[Start, End)` with a value. -/
structure Rate where
  Start : Int
  End : Int
  Value : ℚ
deriving DecidableEq, Repr

/-- The result of `time.Duration.Seconds()` for a duration of `d` nanoseconds. -/
def Seconds (d : Int) : ℚ := (d : ℚ) / 1000000000

/-- A `float64` as produced by a division: a finite value, an infinity or `NaN`. -/
inductive Float64 where
  | finite (q : ℚ)
  | posInf
  | negInf
  | NaN
deriving DecidableEq, Repr

/-- The result of `math.IsNaN`. -/
def Float64.IsNaN : Float64 → Bool
  | Float64.NaN => true
  | _ => false

/-- The `float64` quotient `x / y` of two finite values: a zero divisor gives `NaN` for a zero
dividend and an infinity with the sign of the dividend otherwise. -/
def fdiv (x y : ℚ) : Float64 :=
  if y = 0 then
    if x = 0 then Float64.NaN else if 0 < x then Float64.posInf else Float64.negInf
  else Float64.finite (x / y)

/-- The roles of a tariff provider (`api.TariffUsage`). -/
inductive TariffUsage where
  | Co2
  | FeedIn
  | Grid
  | Planner
  | Solar
deriving DecidableEq, Repr

/-- The kinds of tariff (`api.TariffType`) the source distinguishes; `ofUsage u` is the
conversion `api.TariffType(u)` of a usage. -/
inductive TariffType where
  | PriceStatic
  | PriceDynamic
  | ofUsage (u : TariffUsage)
deriving DecidableEq, Repr

/-- Modelled from the spec: the tariff provider interface (`api.Tariff` read through
`tariff.Now` and `tariff.Forecast`, which are not part of this file): `Typ` is the
discriminator `Type()`, `Forecast` the forecast series (possibly empty) and `Now` the current value,
`none` when the call fails. -/
structure Tariff where
  Typ : TariffType
  Forecast : List Rate
  Now : Option ℚ
deriving DecidableEq, Repr

/-- The fields of `Site` read by `greenShare`, `effectivePrice`, `effectiveCo2` and
`CalculateEffectiveForecastedTariffs`; `GetTariff` is the provider bound to a usage, `none`
for `nil`. -/
structure Site where
  pvPower : ℚ
  batteryPower : ℚ
  GetTariff : TariffUsage → Option Tariff

/-- The field of `Loadpoint` read by this file: the result of `lp.effectiveMaxPower()`. -/
structure Loadpoint where
  effectiveMaxPower : ℚ
deriving DecidableEq, Repr

/-- Modelled from the spec: `tariff.Now`, the current value of a provider, absent when no
provider is bound or when its call fails. -/
def tariff.Now (t : Option Tariff) : Option ℚ :=
  match t with
  | some p => p.Now
  | none => none

/-- Modelled from the spec: `tariff.Forecast`, the forecast series of a provider, empty when
no provider is bound. -/
def tariff.Forecast (t : Option Tariff) : List Rate :=
  match t with
  | some p => p.Forecast
  | none => []

/-! ## Green share (`Site.greenShare`) -/

/-- The method `Site.greenShare`: the green share of the consumption between `powerFrom` and
`powerTo`. -/
def Site.greenShare (site : Site) (powerFrom powerTo : ℚ) : Float64 :=
  let greenPower := max 0 site.pvPower + max 0 site.batteryPower
  let greenPowerAvailable := max 0 (greenPower - powerFrom)
  let power := powerTo - powerFrom
  let share := fdiv (min greenPowerAvailable power) power
  if share.IsNaN then
    if 0 < greenPowerAvailable then Float64.finite 1 else Float64.finite 0
  else share

/-! ## Rate alignment (`alignRates`) -/

/-- All slot boundaries of both series, in the order the source inserts them into its set. -/
def boundaries (a b : List Rate) : List Int :=
  (a.flatMap fun r => [r.Start, r.End]) ++ (b.flatMap fun r => [r.Start, r.End])

/-- The keys of the boundary set, sorted ascending: `slots` of the source after
`slices.SortFunc`. -/
def sortedSlots (a b : List Rate) : List Int :=
  ((boundaries a b).dedup).insertionSort (fun x y => x ≤ y)

/-- The test of the first loop of `interpolateCumulative`:
`!start.Before(r.Start) && !end.After(r.End)`. -/
def covers (start stop : Int) (r : Rate) : Bool :=
  decide (r.Start ≤ start) && decide (stop ≤ r.End)

/-- The second loop of `interpolateCumulative` (the fallback between two neighbouring slots),
the list being `rates[i-1:]`. -/
def gapFallback : List Rate → Int → Int → ℚ
  | prev :: cur :: rest, start, stop =>
    if start < cur.Start ∧ prev.End < stop ∧ 0 < Seconds (cur.Start - prev.End) then
      ((prev.Value + cur.Value) / 2) * (Seconds (stop - start) / Seconds (cur.Start - prev.End))
    else gapFallback (cur :: rest) start stop
  | _, _, _ => 0

/-- The closure `interpolateCumulative` of `alignRates`. -/
def interpolateCumulative (rates : List Rate) (start stop : Int) : ℚ :=
  match rates.find? (covers start stop) with
  | some r =>
    if 0 < Seconds (r.End - r.Start) then
      r.Value * (Seconds (stop - start) / Seconds (r.End - r.Start))
    else 0
  | none => gapFallback rates start stop

/-- The pairs `(slots[i], slots[i+1])` for `i < len(slots) - 1`. -/
def slotPairs (slots : List Int) : List (Int × Int) := slots.zip slots.tail

/-- One series rebuilt on the given slots. -/
def aligned (rates : List Rate) (slots : List Int) : List Rate :=
  (slotPairs slots).map fun p => ⟨p.1, p.2, interpolateCumulative rates p.1 p.2⟩

/-- The function `alignRates`: the new values of `*a` and `*b`. -/
def alignRates (a b : List Rate) : List Rate × List Rate :=
  if a.length = 0 ∨ b.length = 0 then (a, b)
  else (aligned a (sortedSlots a b), aligned b (sortedSlots a b))

/-- The sum of the values of a series. -/
def total (rates : List Rate) : ℚ := (rates.map Rate.Value).sum

/-! ## Effective price and CO2 -/

/-- The method `Site.effectivePrice`; `none` is the `nil` result. -/
def Site.effectivePrice (site : Site) (greenShare : ℚ) : Option ℚ :=
  match tariff.Now (site.GetTariff TariffUsage.Grid) with
  | some grid =>
    let feedin :=
      match tariff.Now (site.GetTariff TariffUsage.FeedIn) with
      | some v => v
      | none => 0
    some (grid * (1 - greenShare) + feedin * greenShare)
  | none => none

/-- The method `Site.effectiveCo2`; `none` is the `nil` result. -/
def Site.effectiveCo2 (site : Site) (greenShare : ℚ) : Option ℚ :=
  match tariff.Now (site.GetTariff TariffUsage.Co2) with
  | some co2 => some (co2 * (1 - greenShare))
  | none => none

/-! ## Effective forecasted tariffs -/

/-- The type `effectiveTariffImpl`: a tariff over a static set of rates. -/
structure effectiveTariffImpl where
  rates : List Rate
deriving DecidableEq, Repr

/-- The method `effectiveTariffImpl.Rates`, which never fails. -/
def effectiveTariffImpl.Rates (t : effectiveTariffImpl) : List Rate := t.rates

/-- The method `effectiveTariffImpl.Type` (`Type` is reserved here). -/
def effectiveTariffImpl.Typ (_t : effectiveTariffImpl) : TariffType :=
  TariffType.ofUsage TariffUsage.Planner

/-- An `api.Tariff` value returned by `CalculateEffectiveForecastedTariffs`: a provider of the
site or an `effectiveTariffImpl`. -/
inductive ApiTariff where
  | provider (t : Tariff)
  | effective (t : effectiveTariffImpl)
deriving DecidableEq, Repr

/-- The function `NewEffectiveTariff`. -/
def NewEffectiveTariff (rates : List Rate) : ApiTariff :=
  ApiTariff.effective ⟨rates⟩

/-- The default tariff `site.GetTariff(api.TariffUsagePlanner)` as a returned value. -/
def Site.plannerTariff (site : Site) : Option ApiTariff :=
  (site.GetTariff TariffUsage.Planner).map ApiTariff.provider

/-- Lines 107-130: the feed-in series; `none` stands for the branch that returns the default
tariff. A static provider whose current value cannot be read leaves the series empty. -/
def feedInSeries (feedInTariffObj : Option Tariff) (gridRates : List Rate) :
    Option (List Rate) :=
  match feedInTariffObj with
  | some t =>
    if t.Typ = TariffType.PriceStatic then
      match tariff.Now (some t) with
      | some feedIn => some (gridRates.map fun r => ⟨r.Start, r.End, feedIn⟩)
      | none => some []
    else if t.Typ = TariffType.PriceDynamic then some (tariff.Forecast (some t))
    else none
  | none => none

/-- Lines 150-164: the proportion of green power of one slot. The quotient is only taken for
a positive forecast value, so a zero divisor gives `+Inf` in `float64`, which the limit of
line 162 turns into `1`. -/
def proportionOfGreenPower (lp : Loadpoint) (green : Rate) : ℚ :=
  if 0 < green.Value then
    let slotDuration := Seconds (green.End - green.Start)
    let referenceDuration : ℚ := 3600
    let scaledMaxPower := lp.effectiveMaxPower * (slotDuration / referenceDuration)
    if scaledMaxPower = 0 then 1
    else if 1 < green.Value / scaledMaxPower then 1
    else green.Value / scaledMaxPower
  else 0

/-- Lines 166-176: the rate appended for one index. -/
def effectiveRate (lp : Loadpoint) (grid green feedIn : Rate) : Rate :=
  let proportionOfGreenPower := proportionOfGreenPower lp green
  let proportionOfGridPower := 1 - proportionOfGreenPower
  ⟨grid.Start, grid.End,
    (grid.Value * proportionOfGridPower) + (feedIn.Value * proportionOfGreenPower)⟩

/-- Lines 145-177: the loop over the indices of `gridRates`, left at the first index beyond
`forecastedGreen` or `feedInRates`. -/
def effectiveTariffs (lp : Loadpoint) : List Rate → List Rate → List Rate → List Rate
  | grid :: gridRates, green :: forecastedGreen, feedIn :: feedInRates =>
    effectiveRate lp grid green feedIn :: effectiveTariffs lp gridRates forecastedGreen feedInRates
  | _, _, _ => []

/-- The method `Site.CalculateEffectiveForecastedTariffs`. -/
def Site.CalculateEffectiveForecastedTariffs (site : Site) (lp : Loadpoint) :
    Option ApiTariff :=
  match site.GetTariff TariffUsage.Solar with
  | none => site.plannerTariff
  | some forecastedGreenObj =>
    let forecastedGreen := tariff.Forecast (some forecastedGreenObj)
    match site.GetTariff TariffUsage.Grid with
    | none => site.plannerTariff
    | some gridTariffObj =>
      let gridRates := tariff.Forecast (some gridTariffObj)
      match feedInSeries (site.GetTariff TariffUsage.FeedIn) gridRates with
      | none => site.plannerTariff
      | some feedInRates =>
        let step1 := alignRates gridRates forecastedGreen
        let step2 := alignRates step1.1 feedInRates
        some (NewEffectiveTariff (effectiveTariffs lp step2.1 step1.2 step2.2))

/-- Lines 134-135: the series `gridRates`, `forecastedGreen` and `feedInRates` after the two
calls of `alignRates`. -/
def alignThree (gridRates forecastedGreen feedInRates : List Rate) :
    List Rate × List Rate × List Rate :=
  let step1 := alignRates gridRates forecastedGreen
  let step2 := alignRates step1.1 feedInRates
  (step2.1, step1.2, step2.2)

/-! ## Solar details (`Site.solarDetails`) -/

/-- The type `tsEntry` of the elements of `Timeseries`, declared outside this file and kept
here as a timestamp and a value. -/
structure tsEntry where
  Timestamp : Int
  Value : ℚ
deriving DecidableEq, Repr

/-- The type `dailyDetails`. -/
structure dailyDetails where
  Yield : ℚ
  Complete : Bool
deriving DecidableEq, Repr

/-- The type `solarDetails`; `Scale` is `none` for `nil`. -/
structure solarDetails where
  Scale : Option ℚ
  Today : dailyDetails
  Tomorrow : dailyDetails
  DayAfterTomorrow : dailyDetails
  Timeseries : List tsEntry
deriving DecidableEq, Repr

/-- Modelled from the spec: the type `meterEnergy` of the forecast accumulator and of the PV
energy meters, declared outside this file: the accumulated energy in kWh and the instant of the
last observation. -/
structure meterEnergy where
  updated : Int
  Accumulated : ℚ
deriving DecidableEq, Repr

/-- Modelled from the spec: `meterEnergy.AddEnergy` adds the energy to the accumulator and
advances the instant of the last observation to now. -/
def meterEnergy.AddEnergy (m : meterEnergy) (now : Int) (v : ℚ) : meterEnergy :=
  ⟨now, m.Accumulated + v⟩

/-- Modelled from the spec: `meterEnergy.AccumulatedEnergy` reads the accumulator. -/
def meterEnergy.AccumulatedEnergy (m : meterEnergy) : ℚ := m.Accumulated

/-- What `solarDetails` takes from outside this file: `Now` is `time.Now()`,
`BeginningOfDay` is `now.BeginningOfDay()`, `AddDay t` is `t.AddDate(0, 0, 1)`, and
`solarEnergy` and `solarTimeseries` are the functions of these names. -/
structure Surroundings where
  Now : Int
  BeginningOfDay : Int
  AddDay : Int → Int
  solarEnergy : List Rate → Int → Int → ℚ
  solarTimeseries : List Rate → List tsEntry

/-- The fields of `Site` read and written by `solarDetails`; `pvEnergy` holds the values of
the map of this name. -/
structure SiteEnergy where
  fcstEnergy : meterEnergy
  pvEnergy : List meterEnergy
deriving DecidableEq, Repr

/-- What a call of `solarDetails` leaves: the returned value, the new `site.fcstEnergy` and
the value passed to `settings.SetFloat(keys.SolarAccForecast, _)`. -/
structure solarDetailsOutcome where
  res : solarDetails
  fcstEnergy : meterEnergy
  stored : ℚ
deriving DecidableEq, Repr

/-- The method `Site.solarDetails`; `none` is the run-time panic of `solar[len(solar)-1]` on an
empty series. -/
def SiteEnergy.solarDetails (site : SiteEnergy) (env : Surroundings) (solar : List Rate) :
    Option solarDetailsOutcome :=
  match solar.getLast? with
  | none => none
  | some lastRate =>
    let last := lastRate.Start
    let bod := env.BeginningOfDay
    let eod := env.AddDay bod
    let eot := env.AddDay eod
    let remainingToday := env.solarEnergy solar env.Now eod
    let tomorrow := env.solarEnergy solar eod eot
    let dayAfterTomorrow := env.solarEnergy solar eot (env.AddDay eot)
    let energy := env.solarEnergy solar site.fcstEnergy.updated env.Now / 1000
    let fcstEnergy := site.fcstEnergy.AddEnergy env.Now energy
    let produced := (site.pvEnergy.map meterEnergy.AccumulatedEnergy).sum
    let fcst := fcstEnergy.AccumulatedEnergy
    let minEnergy : ℚ := 1 / 2
    let scale : Option ℚ :=
      if 0 < fcst then
        if minEnergy < produced + fcst then some (produced / fcst) else none
      else none
    some
      { res :=
          { Scale := scale
            Today := ⟨remainingToday, decide (¬ last < eod)⟩
            Tomorrow := ⟨tomorrow, decide (¬ last < eot)⟩
            DayAfterTomorrow := ⟨dayAfterTomorrow, decide (¬ last < env.AddDay eot)⟩
            Timeseries := env.solarTimeseries solar }
        fcstEnergy := fcstEnergy
        stored := fcstEnergy.Accumulated }

/-! ## Notions used to state the properties of the alignment -/

/-- The fraction of the slot `r` that lies before the instant `t`. -/
def elapsed (r : Rate) (t : Int) : ℚ :=
  max 0 (min 1 (((t : ℚ) - r.Start) / ((r.End : ℚ) - r.Start)))

/-- The quantity of a series that lies before the instant `t`, each slot spreading its value
evenly over its duration. -/
def cumulative (rates : List Rate) (t : Int) : ℚ :=
  (rates.map fun r => r.Value * elapsed r t).sum

/-- Each slot ends where the next one starts. -/
def Contiguous (rates : List Rate) : Prop :=
  rates.Chain' (fun x y => x.End = y.Start)

/-- Every slot has `Start < End`. -/
def Proper (rates : List Rate) : Prop :=
  ∀ r ∈ rates, r.Start < r.End

/-- The boundaries of a contiguous series, in order. -/
def points : List Rate → List Int
  | [] => []
  | r :: l => r.Start :: (r :: l).map Rate.End

/-- The pairs `(Start, End)` of a series. -/
def bounds (rates : List Rate) : List (Int × Int) := rates.map fun r => (r.Start, r.End)

/-- The divisors of the divisions performed by the second loop of `interpolateCumulative`:
`2` for the average and `origDuration` for the quotient of the durations. -/
def gapFallbackDivisors : List Rate → Int → Int → List ℚ
  | prev :: cur :: rest, start, stop =>
    if start < cur.Start ∧ prev.End < stop ∧ 0 < Seconds (cur.Start - prev.End) then
      [2, Seconds (cur.Start - prev.End)]
    else gapFallbackDivisors (cur :: rest) start stop
  | _, _, _ => []

/-- The divisors of the divisions performed by one call of `interpolateCumulative`. -/
def interpolateDivisors (rates : List Rate) (start stop : Int) : List ℚ :=
  match rates.find? (covers start stop) with
  | some r => if 0 < Seconds (r.End - r.Start) then [Seconds (r.End - r.Start)] else []
  | none => gapFallbackDivisors rates start stop

/-- The divisors of all divisions performed by `alignRates` while it computes the values of
the sub-slots of both series. -/
def alignDivisors (a b : List Rate) : List ℚ :=
  if a.length = 0 ∨ b.length = 0 then []
  else
    (slotPairs (sortedSlots a b)).flatMap fun p =>
      interpolateDivisors a p.1 p.2 ++ interpolateDivisors b p.1 p.2

/-! ## Concrete sites and series of the scenarios -/

/-- A site with 1000 W of PV power, no battery power and no tariff provider. -/
def pvOnlySite : Site := ⟨1000, 0, fun _ => none⟩

/-- One hour, in nanoseconds. -/
def hour : Int := 3600000000000

/-- A site with a grid price of 0.30 and a feed-in price of 0.10, both static. -/
def pricedSite : Site :=
  ⟨0, 0, fun u =>
    match u with
    | TariffUsage.Grid => some ⟨TariffType.PriceStatic, [], some (3 / 10)⟩
    | TariffUsage.FeedIn => some ⟨TariffType.PriceStatic, [], some (1 / 10)⟩
    | TariffUsage.Co2 => some ⟨TariffType.ofUsage TariffUsage.Co2, [], some 400⟩
    | _ => none⟩

/-- The default tariff of `noFeedInSite`. -/
def defaultTariff : Tariff :=
  ⟨TariffType.PriceDynamic, [⟨0, hour, 1 / 5⟩, ⟨hour, 2 * hour, 1 / 5⟩], some (1 / 5)⟩

/-- A site with a grid series `[00:00-01:00 @ 0.30], [01:00-02:00 @ 0.25]`, a solar forecast
`[00:00-02:00 @ 500]`, a default tariff and no feed-in provider. -/
def noFeedInSite : Site :=
  ⟨0, 0, fun u =>
    match u with
    | TariffUsage.Grid =>
      some ⟨TariffType.PriceDynamic, [⟨0, hour, 3 / 10⟩, ⟨hour, 2 * hour, 1 / 4⟩], some (3 / 10)⟩
    | TariffUsage.Solar =>
      some ⟨TariffType.ofUsage TariffUsage.Solar, [⟨0, 2 * hour, 500⟩], some 500⟩
    | TariffUsage.Planner => some defaultTariff
    | _ => none⟩

/-- Two slots `[0, 1)` and `[2, 3)` of value 1 each, with a gap between them. -/
def gapSeries : List Rate := [⟨0, 1, 1⟩, ⟨2, 3, 1⟩]

/-- The same slots as `gapSeries` with other values. -/
def gapSeries2 : List Rate := [⟨0, 1, 5⟩, ⟨2, 3, 7⟩]

/-- Two overlapping slots `[0, 2)` and `[1, 3)` of value 1 each. -/
def overlapSeries : List Rate := [⟨0, 2, 1⟩, ⟨1, 3, 1⟩]

/-- Three contiguous slots `[0, 2)`, `[2, 3)`, `[3, 6)`. -/
def contiguousSeries : List Rate := [⟨0, 2, 4⟩, ⟨2, 3, 5⟩, ⟨3, 6, 1⟩]

/-- The same slots as `contiguousSeries` with other values. -/
def contiguousSeries2 : List Rate := [⟨0, 2, 7⟩, ⟨2, 3, 0⟩, ⟨3, 6, 2⟩]

/-- A series whose slots are not those of `contiguousSeries`. -/
def otherSeries : List Rate := [⟨1, 4, 6⟩, ⟨5, 9, 2⟩]

/-- The solar-forecast provider of `blendSite`. -/
def blendSolar : Tariff :=
  ⟨TariffType.ofUsage TariffUsage.Solar, [⟨0, 2 * hour, 500⟩], some 500⟩

/-- The grid provider of `blendSite`. -/
def blendGrid : Tariff :=
  ⟨TariffType.PriceDynamic, [⟨0, hour, 3 / 10⟩, ⟨hour, 2 * hour, 1 / 4⟩], some (3 / 10)⟩

/-- The feed-in provider of `blendSite`. -/
def blendFeedIn : Tariff := ⟨TariffType.PriceStatic, [], some (1 / 10)⟩

/-- A site with a grid series `[00:00-01:00 @ 0.30], [01:00-02:00 @ 0.25]`, a solar forecast
`[00:00-02:00 @ 500]` and a static feed-in price of 0.10. -/
def blendSite : Site :=
  ⟨0, 0, fun u =>
    match u with
    | TariffUsage.Grid => some blendGrid
    | TariffUsage.Solar => some blendSolar
    | TariffUsage.FeedIn => some blendFeedIn
    | TariffUsage.Planner => some defaultTariff
    | _ => none⟩

/-- A site with 300 W of PV power, no battery power and no tariff provider. -/
def smallPvSite : Site := ⟨300, 0, fun _ => none⟩

/-- A site without PV power, battery power or tariff provider. -/
def darkSite : Site := ⟨0, 0, fun _ => none⟩

/-- A site with a grid series `[00:00-02:00 @ 0.30]`, a solar forecast `[00:00-02:00 @ 500]`,
a dynamic feed-in series `[00:00-01:00 @ 0.10], [01:00-02:00 @ 0.12]` and a default tariff. -/
def dynamicFeedInSite : Site :=
  ⟨0, 0, fun u =>
    match u with
    | TariffUsage.Grid => some ⟨TariffType.PriceDynamic, [⟨0, 2 * hour, 3 / 10⟩], some (3 / 10)⟩
    | TariffUsage.Solar =>
      some ⟨TariffType.ofUsage TariffUsage.Solar, [⟨0, 2 * hour, 500⟩], some 500⟩
    | TariffUsage.FeedIn =>
      some ⟨TariffType.PriceDynamic, [⟨0, hour, 1 / 10⟩, ⟨hour, 2 * hour, 3 / 25⟩],
        some (1 / 10)⟩
    | TariffUsage.Planner => some defaultTariff
    | _ => none⟩

/-- A site with a grid series `[00:00-02:00 @ 0.30]`, a solar forecast
`[00:00-01:00 @ 250], [01:00-02:00 @ 250]`, a static feed-in price of 0.10 and a default
tariff. -/
def coarseGridSite : Site :=
  ⟨0, 0, fun u =>
    match u with
    | TariffUsage.Grid => some ⟨TariffType.PriceDynamic, [⟨0, 2 * hour, 3 / 10⟩], some (3 / 10)⟩
    | TariffUsage.Solar =>
      some ⟨TariffType.ofUsage TariffUsage.Solar, [⟨0, hour, 250⟩, ⟨hour, 2 * hour, 250⟩],
        some 250⟩
    | TariffUsage.FeedIn => some blendFeedIn
    | TariffUsage.Planner => some defaultTariff
    | _ => none⟩

/-- A site like `blendSite` whose static feed-in provider cannot give its current value. -/
def unreadableFeedInSite : Site :=
  ⟨0, 0, fun u =>
    match u with
    | TariffUsage.Grid => some blendGrid
    | TariffUsage.Solar => some blendSolar
    | TariffUsage.FeedIn => some ⟨TariffType.PriceStatic, [], none⟩
    | TariffUsage.Planner => some defaultTariff
    | _ => none⟩

/-- One day, in nanoseconds. -/
def day : Int := 24 * hour

/-- Noon of a day that begins at 0, days of 24 hours, and no forecast energy in any interval. -/
def noonSurroundings : Surroundings :=
  ⟨12 * hour, 0, fun t => t + day, fun _ _ _ => 0, fun _ => []⟩

/-- A forecast whose last slot is the last hour of today, `[23:00-24:00 @ 100]`. -/
def untilMidnight : List Rate := [⟨22 * hour, 23 * hour, 200⟩, ⟨23 * hour, 24 * hour, 100⟩]

/-- A forecast whose last slot starts at the end of tomorrow. -/
def untilDayAfter : List Rate := [⟨0, 2 * day, 200⟩, ⟨2 * day, 2 * day + hour, 100⟩]

/-- A site that has produced 1 kWh and has not accumulated any forecast energy. -/
def producingSite : SiteEnergy := ⟨⟨0, 0⟩, [⟨0, 1⟩]⟩

/-- A site that has produced 3 kWh and has accumulated 2 kWh of forecast energy. -/
def calibratedSite : SiteEnergy := ⟨⟨0, 2⟩, [⟨0, 1⟩, ⟨0, 2⟩]⟩

/-- A slot of zero duration at 0 with the value 10, then the slot `[2, 3)`. -/
def zeroSlotSeries : List Rate := [⟨0, 0, 10⟩, ⟨2, 3, 1⟩]

/-- The series `zeroSlotSeries` with the value 0 in its slot of zero duration. -/
def zeroSlotSeries0 : List Rate := [⟨0, 0, 0⟩, ⟨2, 3, 1⟩]

end SiteTariffs

namespace SiteTariffs

/-! ## Green share -/

/-- C3: for every PV power and battery power and every band with
`powerTo ≥ powerFrom ≥ 0`, `greenShare` is a finite number of `[0, 1]`. -/
theorem greenShare_mem_unit_interval (site : Site) (powerFrom powerTo : ℚ)
    (_hfrom : 0 ≤ powerFrom) (hto : powerFrom ≤ powerTo) :
    ∃ q, site.greenShare powerFrom powerTo = Float64.finite q ∧ 0 ≤ q ∧ q ≤ 1 := by
  unfold Site.greenShare
  simp only []
  rcases eq_or_lt_of_le hto with h | h
  · subst h
    by_cases hg : 0 < max 0 (max 0 site.pvPower + max 0 site.batteryPower - powerFrom)
    · exact ⟨1, by simp [fdiv, Float64.IsNaN, hg], by norm_num, le_refl _⟩
    · exact ⟨0, by simp [fdiv, Float64.IsNaN, hg], le_refl _, by norm_num⟩
  · have hp : 0 < powerTo - powerFrom := sub_pos.mpr h
    refine ⟨min (max 0 (max 0 site.pvPower + max 0 site.batteryPower - powerFrom))
      (powerTo - powerFrom) / (powerTo - powerFrom), ?_, ?_, ?_⟩
    · simp [fdiv, Float64.IsNaN, hp.ne']
    · exact div_nonneg (le_min (le_max_left _ _) hp.le) hp.le
    · rw [div_le_one hp]
      exact min_le_right _ _

/-- The band of C3 at a concrete site: PV 1000 W, band `[500, 1500)`. -/
theorem greenShare_mem_unit_interval_witness :
    (0 : ℚ) ≤ 500 ∧ (500 : ℚ) ≤ 1500 ∧
      ∃ q, pvOnlySite.greenShare 500 1500 = Float64.finite q ∧ 0 ≤ q ∧ q ≤ 1 :=
  ⟨by norm_num, by norm_num,
    greenShare_mem_unit_interval pvOnlySite 500 1500 (by norm_num) (by norm_num)⟩

/-- C4: for every band with `powerTo > powerFrom`, `greenShare` is
`min(max(0, greenPower − powerFrom), powerTo − powerFrom) / (powerTo − powerFrom)` with
`greenPower = max(0, pvPower) + max(0, batteryPower)`. -/
theorem greenShare_eq_of_lt (site : Site) (powerFrom powerTo : ℚ) (h : powerFrom < powerTo) :
    site.greenShare powerFrom powerTo =
      Float64.finite
        (min (max 0 (max 0 site.pvPower + max 0 site.batteryPower - powerFrom))
          (powerTo - powerFrom) / (powerTo - powerFrom)) := by
  have hp : powerTo - powerFrom ≠ 0 := (sub_pos.mpr h).ne'
  simp [Site.greenShare, fdiv, Float64.IsNaN, hp]

/-- The scenario of C4: PV = 1000, battery = 0 and the band `[500, 1500)` give 0.5. -/
theorem greenShare_eq_of_lt_witness :
    (500 : ℚ) < 1500 ∧ pvOnlySite.greenShare 500 1500 = Float64.finite (1 / 2) :=
  ⟨by norm_num,
    (greenShare_eq_of_lt pvOnlySite 500 1500 (by norm_num)).trans
      (by norm_num [pvOnlySite])⟩

/-! ## Missing providers, effective price and effective CO2 -/

/-- C6: `CalculateEffectiveForecastedTariffs` returns the default (planner) tariff of the site
whenever the solar-forecast provider, the grid provider or the feed-in provider is absent,
whatever the other providers hold. -/
theorem calculate_default_of_absent (site : Site) (lp : Loadpoint)
    (h : site.GetTariff TariffUsage.Solar = none ∨ site.GetTariff TariffUsage.Grid = none ∨
      site.GetTariff TariffUsage.FeedIn = none) :
    site.CalculateEffectiveForecastedTariffs lp = site.plannerTariff := by
  unfold Site.CalculateEffectiveForecastedTariffs
  cases hs : site.GetTariff TariffUsage.Solar with
  | none => rfl
  | some sol =>
    cases hg : site.GetTariff TariffUsage.Grid with
    | none => rfl
    | some grid =>
      have hf : site.GetTariff TariffUsage.FeedIn = none := by
        rcases h with h | h | h
        · rw [hs] at h; cases h
        · rw [hg] at h; cases h
        · exact h
      simp [hf, feedInSeries]

/-- The scenario of C6: a grid series, a solar forecast and no feed-in provider give the
default tariff. -/
theorem calculate_default_of_absent_witness :
    (noFeedInSite.GetTariff TariffUsage.Solar = none ∨
        noFeedInSite.GetTariff TariffUsage.Grid = none ∨
        noFeedInSite.GetTariff TariffUsage.FeedIn = none) ∧
      noFeedInSite.CalculateEffectiveForecastedTariffs ⟨11000⟩ =
        some (ApiTariff.provider defaultTariff) :=
  ⟨Or.inr (Or.inr rfl),
    calculate_default_of_absent noFeedInSite ⟨11000⟩ (Or.inr (Or.inr rfl))⟩

/-- C7: `effectivePrice` is absent exactly when the current grid price is unavailable, and
otherwise is `gridPrice * (1 − s) + feedInPrice * s`, the feed-in price being the current
feed-in value (0 when that one is unavailable). -/
theorem effectivePrice_spec (site : Site) (s grid : ℚ) :
    (site.effectivePrice s = none ↔ tariff.Now (site.GetTariff TariffUsage.Grid) = none) ∧
      (tariff.Now (site.GetTariff TariffUsage.Grid) = some grid →
        site.effectivePrice s =
          some (grid * (1 - s) +
            (tariff.Now (site.GetTariff TariffUsage.FeedIn)).getD 0 * s)) := by
  unfold Site.effectivePrice
  cases hg : tariff.Now (site.GetTariff TariffUsage.Grid) with
  | none => simp
  | some g =>
    cases hf : tariff.Now (site.GetTariff TariffUsage.FeedIn) <;> simp
    · intro h; simp [h]
    · intro h; simp [h]

/-- The scenario of C7: grid = 0.30, feed-in = 0.10 and a share of 0.5 give 0.20. -/
theorem effectivePrice_spec_witness :
    tariff.Now (pricedSite.GetTariff TariffUsage.Grid) = some (3 / 10) ∧
      pricedSite.effectivePrice (1 / 2) = some (1 / 5) :=
  ⟨rfl, ((effectivePrice_spec pricedSite (1 / 2) (3 / 10)).2 rfl).trans
    (by norm_num [pricedSite, tariff.Now])⟩

/-- C8: `effectiveCo2` is absent exactly when the current CO2 value is unavailable, and
otherwise is `gridCO2 * (1 − s)`: 0 at `s = 1` and `gridCO2` at `s = 0`. -/
theorem effectiveCo2_spec (site : Site) (s co2 : ℚ) :
    (site.effectiveCo2 s = none ↔ tariff.Now (site.GetTariff TariffUsage.Co2) = none) ∧
      (tariff.Now (site.GetTariff TariffUsage.Co2) = some co2 →
        site.effectiveCo2 s = some (co2 * (1 - s)) ∧ site.effectiveCo2 1 = some 0 ∧
          site.effectiveCo2 0 = some co2) := by
  unfold Site.effectiveCo2
  cases hc : tariff.Now (site.GetTariff TariffUsage.Co2) with
  | none => simp
  | some c =>
    simp
    intro h
    simp [h]

/-- The formula of C8 at a site with a current CO2 value of 400 and a share of 1/4. -/
theorem effectiveCo2_spec_witness :
    tariff.Now (pricedSite.GetTariff TariffUsage.Co2) = some 400 ∧
      pricedSite.effectiveCo2 (1 / 4) = some 300 :=
  ⟨rfl, ((effectiveCo2_spec pricedSite (1 / 4) 400).2 rfl).1.trans (by norm_num)⟩

/-! ## Rate alignment: the slot boundaries -/

theorem mem_boundaries {a b : List Rate} {t : Int} :
    t ∈ boundaries a b ↔ ∃ r ∈ a ++ b, t = r.Start ∨ t = r.End := by
  simp only [boundaries, List.mem_append, List.mem_flatMap, List.mem_cons, List.mem_singleton,
    List.not_mem_nil, or_false]
  constructor
  · rintro (⟨r, hr, h⟩ | ⟨r, hr, h⟩)
    · exact ⟨r, Or.inl hr, h⟩
    · exact ⟨r, Or.inr hr, h⟩
  · rintro ⟨r, hr | hr, h⟩
    · exact Or.inl ⟨r, hr, h⟩
    · exact Or.inr ⟨r, hr, h⟩

theorem mem_sortedSlots {a b : List Rate} {t : Int} :
    t ∈ sortedSlots a b ↔ t ∈ boundaries a b := by
  simp [sortedSlots, List.mem_insertionSort]

theorem sortedSlots_sorted (a b : List Rate) : (sortedSlots a b).Sorted (fun x y => x < y) := by
  have h1 : (sortedSlots a b).Sorted (fun x y => x ≤ y) :=
    List.sorted_insertionSort _ _
  have h2 : (sortedSlots a b).Nodup :=
    (List.perm_insertionSort _ _).nodup_iff.mpr (List.nodup_dedup _)
  exact h1.lt_of_le h2

theorem slotPairs_cons_cons (x y : Int) (l : List Int) :
    slotPairs (x :: y :: l) = (x, y) :: slotPairs (y :: l) := rfl

theorem aligned_cons_cons (rates : List Rate) (x y : Int) (l : List Int) :
    aligned rates (x :: y :: l) =
      ⟨x, y, interpolateCumulative rates x y⟩ :: aligned rates (y :: l) := rfl

theorem aligned_bounds (rates : List Rate) (slots : List Int) :
    (aligned rates slots).map (fun r => (r.Start, r.End)) = slotPairs slots := by
  simp [aligned, Function.comp_def]

theorem slotPairs_lt {slots : List Int} (h : slots.Sorted (fun x y => x < y)) :
    ∀ p ∈ slotPairs slots, p.1 < p.2 := by
  induction slots with
  | nil => simp [slotPairs]
  | cons x l ih =>
    cases l with
    | nil => simp [slotPairs]
    | cons y l =>
      intro p hp
      rw [slotPairs_cons_cons, List.mem_cons] at hp
      rcases hp with rfl | hp
      · exact List.rel_of_sorted_cons h y (List.mem_cons_self _ _)
      · exact ih h.of_cons p hp

theorem aligned_chain (rates : List Rate) (slots : List Int) :
    (aligned rates slots).Chain' (fun x y => x.End = y.Start) := by
  induction slots with
  | nil => simp [aligned, slotPairs]
  | cons x l ih =>
    cases l with
    | nil => simp [aligned, slotPairs]
    | cons y l =>
      rw [aligned_cons_cons]
      cases l with
      | nil => simp [aligned, slotPairs]
      | cons z l =>
        rw [aligned_cons_cons] at ih ⊢
        exact List.Chain'.cons rfl ih

theorem alignRates_of_ne_nil {a b : List Rate} (ha : a ≠ []) (hb : b ≠ []) :
    alignRates a b = (aligned a (sortedSlots a b), aligned b (sortedSlots a b)) := by
  have h : ¬(a.length = 0 ∨ b.length = 0) := by
    simp [List.length_eq_zero, ha, hb]
  simp only [alignRates, if_neg h]

/-- C2: for non-empty series, the two aligned series have the same length and the same start
and end at every index; their boundaries are the strictly ascending list of all starts and
ends of both inputs, every slot has `Start < End`, and the end of each slot is the start of the
next one. -/
theorem alignRates_shared_boundaries (a b : List Rate) (ha : a ≠ []) (hb : b ≠ []) :
    (alignRates a b).1.length = (alignRates a b).2.length ∧
      (alignRates a b).1.map (fun r => (r.Start, r.End)) =
        (alignRates a b).2.map (fun r => (r.Start, r.End)) ∧
      (∃ slots : List Int, slots.Sorted (fun x y => x < y) ∧
        (∀ t, t ∈ slots ↔ ∃ r ∈ a ++ b, t = r.Start ∨ t = r.End) ∧
        (alignRates a b).1.map (fun r => (r.Start, r.End)) = slots.zip slots.tail) ∧
      (∀ r ∈ (alignRates a b).1, r.Start < r.End) ∧
      (alignRates a b).1.Chain' (fun x y => x.End = y.Start) := by
  rw [alignRates_of_ne_nil ha hb]
  refine ⟨?_, ?_, ⟨sortedSlots a b, sortedSlots_sorted a b, ?_, ?_⟩, ?_, ?_⟩
  · simp [aligned]
  · rw [aligned_bounds, aligned_bounds]
  · intro t
    rw [mem_sortedSlots, mem_boundaries]
  · exact aligned_bounds a _
  · intro r hr
    have hp : (r.Start, r.End) ∈ slotPairs (sortedSlots a b) := by
      rw [← aligned_bounds a]
      exact List.mem_map_of_mem _ hr
    exact slotPairs_lt (sortedSlots_sorted a b) _ hp
  · exact aligned_chain a _

/-- C2 at the series `[0, 2) @ 4` and `[1, 3) @ 6`. -/
theorem alignRates_shared_boundaries_witness :
    ([⟨0, 2, 4⟩] : List Rate) ≠ [] ∧ ([⟨1, 3, 6⟩] : List Rate) ≠ [] ∧
      (alignRates [⟨0, 2, 4⟩] [⟨1, 3, 6⟩]).1.map (fun r => (r.Start, r.End)) =
        (alignRates [⟨0, 2, 4⟩] [⟨1, 3, 6⟩]).2.map (fun r => (r.Start, r.End)) :=
  ⟨by simp, by simp,
    (alignRates_shared_boundaries [⟨0, 2, 4⟩] [⟨1, 3, 6⟩] (by simp) (by simp)).2.1⟩

/-! ## Rate alignment: the total of a contiguous series is kept -/

theorem Seconds_pos_iff (d : Int) : 0 < Seconds d ↔ 0 < d := by
  unfold Seconds
  rw [div_pos_iff_of_pos_right (by norm_num)]
  exact Int.cast_pos

theorem Seconds_div (x y : Int) : Seconds x / Seconds y = (x : ℚ) / (y : ℚ) := by
  unfold Seconds
  exact div_div_div_cancel_right₀ (by norm_num) _ _

theorem gapFallback_contiguous {rates : List Rate} (h : Contiguous rates) (start stop : Int) :
    gapFallback rates start stop = 0 := by
  induction rates with
  | nil => rfl
  | cons prev l ih =>
    cases l with
    | nil => rfl
    | cons cur rest =>
      have h2 := List.chain'_cons.mp h
      have hc : prev.End = cur.Start := h2.1
      have hz : ¬ 0 < Seconds (cur.Start - prev.End) := by
        rw [Seconds_pos_iff, hc]; simp
      unfold gapFallback
      rw [if_neg (fun hh => hz hh.2.2)]
      exact ih h2.2

theorem elapsed_of_le {r : Rate} (hr : r.Start < r.End) {t : Int} (h : t ≤ r.Start) :
    elapsed r t = 0 := by
  unfold elapsed
  have hd : (0 : ℚ) < (r.End : ℚ) - r.Start := by
    rw [sub_pos]; exact_mod_cast hr
  have hn : ((t : ℚ) - r.Start) / ((r.End : ℚ) - r.Start) ≤ 0 := by
    apply div_nonpos_of_nonpos_of_nonneg _ hd.le
    rw [sub_nonpos]; exact_mod_cast h
  rw [max_eq_left]
  exact le_trans (min_le_right _ _) hn

theorem elapsed_of_ge {r : Rate} (hr : r.Start < r.End) {t : Int} (h : r.End ≤ t) :
    elapsed r t = 1 := by
  unfold elapsed
  have hd : (0 : ℚ) < (r.End : ℚ) - r.Start := by
    rw [sub_pos]; exact_mod_cast hr
  have hn : 1 ≤ ((t : ℚ) - r.Start) / ((r.End : ℚ) - r.Start) := by
    rw [one_le_div hd]
    have : (r.End : ℚ) ≤ t := by exact_mod_cast h
    linarith
  rw [min_eq_left hn, max_eq_right (by norm_num)]

theorem elapsed_of_mem {r : Rate} (hr : r.Start < r.End) {t : Int} (h1 : r.Start ≤ t)
    (h2 : t ≤ r.End) :
    elapsed r t = ((t : ℚ) - r.Start) / ((r.End : ℚ) - r.Start) := by
  unfold elapsed
  have hd : (0 : ℚ) < (r.End : ℚ) - r.Start := by
    rw [sub_pos]; exact_mod_cast hr
  have h1q : (r.Start : ℚ) ≤ t := by exact_mod_cast h1
  have h2q : (t : ℚ) ≤ r.End := by exact_mod_cast h2
  have hn : ((t : ℚ) - r.Start) / ((r.End : ℚ) - r.Start) ≤ 1 := by
    rw [div_le_one hd]; linarith
  have hp : 0 ≤ ((t : ℚ) - r.Start) / ((r.End : ℚ) - r.Start) :=
    div_nonneg (by linarith) hd.le
  rw [min_eq_right hn, max_eq_right hp]

theorem contiguous_tail {r : Rate} {rates : List Rate} (h : Contiguous (r :: rates)) :
    Contiguous rates :=
  List.Chain'.tail h

theorem proper_tail {r : Rate} {rates : List Rate} (h : Proper (r :: rates)) : Proper rates :=
  fun x hx => h x (List.mem_cons_of_mem _ hx)

/-- In a contiguous series of proper slots, every later slot starts at or after the end of
the first one. -/
theorem end_le_start_of_mem {r : Rate} {rates : List Rate} (hc : Contiguous (r :: rates))
    (hp : Proper (r :: rates)) : ∀ x ∈ rates, r.End ≤ x.Start := by
  induction rates generalizing r with
  | nil => simp
  | cons y l ih =>
    have h2 := List.chain'_cons.mp hc
    have hy : y.Start < y.End := hp y (List.mem_cons_of_mem _ (List.mem_cons_self _ _))
    intro x hx
    rcases List.mem_cons.mp hx with rfl | hx
    · exact h2.1.le
    · have := ih h2.2 (proper_tail hp) x hx
      have h3 : r.End = y.Start := h2.1
      omega

theorem cumulative_cons (r : Rate) (rates : List Rate) (t : Int) :
    cumulative (r :: rates) t = r.Value * elapsed r t + cumulative rates t := by
  simp [cumulative]

theorem cumulative_eq_zero {rates : List Rate} (hp : Proper rates) {t : Int}
    (h : ∀ r ∈ rates, t ≤ r.Start) : cumulative rates t = 0 := by
  induction rates with
  | nil => rfl
  | cons r l ih =>
    rw [cumulative_cons, elapsed_of_le (hp r (List.mem_cons_self _ _))
      (h r (List.mem_cons_self _ _)), ih (proper_tail hp)
      (fun x hx => h x (List.mem_cons_of_mem _ hx))]
    simp

theorem cumulative_eq_total {rates : List Rate} (hp : Proper rates) {t : Int}
    (h : ∀ r ∈ rates, r.End ≤ t) : cumulative rates t = total rates := by
  induction rates with
  | nil => rfl
  | cons r l ih =>
    rw [cumulative_cons, elapsed_of_ge (hp r (List.mem_cons_self _ _))
      (h r (List.mem_cons_self _ _)), ih (proper_tail hp)
      (fun x hx => h x (List.mem_cons_of_mem _ hx))]
    simp [total]

/-- The value found by the first loop of `interpolateCumulative`, 0 when no slot covers. -/
theorem interpolateCumulative_contiguous {rates : List Rate} (hc : Contiguous rates)
    (start stop : Int) :
    interpolateCumulative rates start stop =
      match rates.find? (covers start stop) with
      | some r =>
        if 0 < r.End - r.Start then
          r.Value * (((stop - start : Int) : ℚ) / ((r.End - r.Start : Int) : ℚ))
        else 0
      | none => 0 := by
  unfold interpolateCumulative
  cases rates.find? (covers start stop) with
  | none => exact gapFallback_contiguous hc start stop
  | some r => simp only [Seconds_pos_iff, Seconds_div]

/-- The key step: between two instants that no boundary of the series separates, the value
computed by `interpolateCumulative` is the increase of the cumulative quantity. -/
theorem interpolateCumulative_eq_cumulative {rates : List Rate} (hc : Contiguous rates)
    (hp : Proper rates) {start stop : Int} (hlt : start < stop)
    (hb : ∀ r ∈ rates, (r.Start ≤ start ∨ stop ≤ r.Start) ∧ (r.End ≤ start ∨ stop ≤ r.End)) :
    interpolateCumulative rates start stop = cumulative rates stop - cumulative rates start := by
  rw [interpolateCumulative_contiguous hc]
  induction rates with
  | nil => simp [cumulative]
  | cons r l ih =>
    have hr : r.Start < r.End := hp r (List.mem_cons_self _ _)
    have hbr := hb r (List.mem_cons_self _ _)
    rw [cumulative_cons, cumulative_cons]
    by_cases hcov : covers start stop r = true
    · rw [List.find?_cons_of_pos _ hcov]
      have h1 : r.Start ≤ start ∧ stop ≤ r.End := by
        simpa [covers] using hcov
      have hrest : ∀ x ∈ l, r.End ≤ x.Start := end_le_start_of_mem hc hp
      rw [cumulative_eq_zero (proper_tail hp) (fun x hx => by have := hrest x hx; omega),
        cumulative_eq_zero (proper_tail hp) (fun x hx => by have := hrest x hx; omega),
        elapsed_of_mem hr (by omega) h1.2, elapsed_of_mem hr h1.1 (by omega)]
      have hpos : 0 < r.End - r.Start := by omega
      simp only [hpos, if_true]
      push_cast
      ring
    · rw [List.find?_cons_of_neg _ hcov]
      have h1 : ¬ (r.Start ≤ start ∧ stop ≤ r.End) := by
        simpa [covers] using hcov
      have he : elapsed r stop = elapsed r start := by
        rcases hbr with ⟨hs | hs, he | he⟩
        · rw [elapsed_of_ge hr (by omega), elapsed_of_ge hr he]
        · exact absurd ⟨hs, he⟩ h1
        · rw [elapsed_of_le hr hs, elapsed_of_le hr (by omega)]
        · rw [elapsed_of_le hr hs, elapsed_of_le hr (by omega)]
      rw [ih (contiguous_tail hc) (proper_tail hp)
        (fun x hx => hb x (List.mem_cons_of_mem _ hx)), he]
      ring

/-- Differences over consecutive slots telescope. -/
theorem sum_slotPairs_sub (F : Int → ℚ) (x : Int) (l : List Int) :
    ((slotPairs (x :: l)).map fun p => F p.2 - F p.1).sum =
      F ((x :: l).getLast (List.cons_ne_nil _ _)) - F x := by
  induction l generalizing x with
  | nil => simp [slotPairs]
  | cons y l ih =>
    rw [slotPairs_cons_cons, List.map_cons, List.sum_cons, ih y,
      List.getLast_cons (List.cons_ne_nil _ _)]
    ring

theorem head_le_of_sorted {x : Int} {l : List Int}
    (h : (x :: l).Sorted (fun x y => x < y)) : ∀ t ∈ x :: l, x ≤ t := by
  intro t ht
  rcases List.mem_cons.mp ht with rfl | ht
  · exact le_refl _
  · exact (List.rel_of_sorted_cons h t ht).le

theorem le_getLast_of_sorted {x : Int} {l : List Int}
    (h : (x :: l).Sorted (fun x y => x < y)) :
    ∀ t ∈ x :: l, t ≤ (x :: l).getLast (List.cons_ne_nil _ _) := by
  induction l generalizing x with
  | nil => simp
  | cons y l ih =>
    intro t ht
    rw [List.getLast_cons (List.cons_ne_nil _ _)]
    rcases List.mem_cons.mp ht with rfl | ht
    · have h1 : t < y := List.rel_of_sorted_cons h y (List.mem_cons_self _ _)
      have h2 := ih h.of_cons y (List.mem_cons_self _ _)
      omega
    · exact ih h.of_cons t ht

/-- No element of a strictly ascending list lies strictly inside one of its slots. -/
theorem slotPairs_separate {slots : List Int} (h : slots.Sorted (fun x y => x < y)) :
    ∀ p ∈ slotPairs slots, ∀ t ∈ slots, t ≤ p.1 ∨ p.2 ≤ t := by
  induction slots with
  | nil => simp [slotPairs]
  | cons x l ih =>
    cases l with
    | nil => simp [slotPairs]
    | cons y l =>
      intro p hp t ht
      rw [slotPairs_cons_cons, List.mem_cons] at hp
      rcases hp with rfl | hp
      · rcases List.mem_cons.mp ht with rfl | ht
        · exact Or.inl (le_refl _)
        · exact Or.inr (head_le_of_sorted h.of_cons t ht)
      · rcases List.mem_cons.mp ht with rfl | ht
        · left
          have h1 : t < y := List.rel_of_sorted_cons h y (List.mem_cons_self _ _)
          have h2 : p.1 ∈ y :: l := (List.of_mem_zip (a := p.1) (b := p.2) hp).1
          have h3 := head_le_of_sorted h.of_cons p.1 h2
          omega
        · exact ih h.of_cons p hp t ht

theorem total_aligned (rates : List Rate) (slots : List Int) :
    total (aligned rates slots) =
      ((slotPairs slots).map fun p => interpolateCumulative rates p.1 p.2).sum := by
  simp [total, aligned, Function.comp_def]

/-- Rebuilding a contiguous series of proper slots on a strictly ascending list of instants
that contains all its boundaries keeps the sum of its values. -/
theorem total_aligned_eq {rates : List Rate} (hne : rates ≠ []) (hc : Contiguous rates)
    (hp : Proper rates) {slots : List Int} (hs : slots.Sorted (fun x y => x < y))
    (hmem : ∀ r ∈ rates, r.Start ∈ slots ∧ r.End ∈ slots) :
    total (aligned rates slots) = total rates := by
  rw [total_aligned]
  have hstep : ∀ p ∈ slotPairs slots,
      interpolateCumulative rates p.1 p.2 = cumulative rates p.2 - cumulative rates p.1 := by
    intro p hpair
    apply interpolateCumulative_eq_cumulative hc hp (slotPairs_lt hs p hpair)
    intro r hr
    exact ⟨slotPairs_separate hs p hpair _ (hmem r hr).1,
      slotPairs_separate hs p hpair _ (hmem r hr).2⟩
  rw [List.map_congr_left hstep]
  cases slots with
  | nil =>
    obtain ⟨r, hr⟩ := List.exists_mem_of_ne_nil _ hne
    exact absurd (hmem r hr).1 (List.not_mem_nil _)
  | cons x l =>
    rw [sum_slotPairs_sub (cumulative rates) x l,
      cumulative_eq_total hp (fun r hr => le_getLast_of_sorted hs _ (hmem r hr).2),
      cumulative_eq_zero hp (fun r hr => head_le_of_sorted hs _ (hmem r hr).1)]
    simp

theorem boundaries_mem_left {a b : List Rate} :
    ∀ r ∈ a, r.Start ∈ sortedSlots a b ∧ r.End ∈ sortedSlots a b := by
  intro r hr
  simp only [mem_sortedSlots, mem_boundaries]
  exact ⟨⟨r, List.mem_append_left _ hr, Or.inl rfl⟩, ⟨r, List.mem_append_left _ hr, Or.inr rfl⟩⟩

/-- C1: for every series `a` that is contiguous with `Start < End` in every slot (hence
non-overlapping) and every non-empty series `b`, the sum of the values of the aligned `a` is
the sum of the values of `a`. -/
theorem alignRates_preserves_total (a b : List Rate) (hc : Contiguous a) (hp : Proper a)
    (_hb : b ≠ []) : total (alignRates a b).1 = total a := by
  by_cases h : a.length = 0 ∨ b.length = 0
  · simp only [alignRates, if_pos h]
  · simp only [alignRates, if_neg h]
    have hne : a ≠ [] := by
      intro h0; apply h; left; simp [h0]
    exact total_aligned_eq hne hc hp (sortedSlots_sorted a b) boundaries_mem_left

/-! ## Rate alignment: series that already share their boundaries -/

theorem points_cons_cons {r y : Rate} {l : List Rate} (hc : Contiguous (r :: y :: l)) :
    points (r :: y :: l) = r.Start :: points (y :: l) := by
  have h : r.End = y.Start := (List.chain'_cons.mp hc).1
  simp [points, h]

theorem slotPairs_points {rates : List Rate} (hc : Contiguous rates) :
    slotPairs (points rates) = bounds rates := by
  induction rates with
  | nil => rfl
  | cons r l ih =>
    cases l with
    | nil => rfl
    | cons y l =>
      rw [points_cons_cons hc]
      have h : r.End = y.Start := (List.chain'_cons.mp hc).1
      have h2 : points (y :: l) = y.Start :: (y :: l).map Rate.End := rfl
      rw [h2, slotPairs_cons_cons, ← h2, ih (contiguous_tail hc)]
      simp [bounds, h]

theorem mem_points {rates : List Rate} (hc : Contiguous rates) (t : Int) :
    t ∈ points rates ↔ ∃ x ∈ rates, t = x.Start ∨ t = x.End := by
  induction rates with
  | nil => simp [points]
  | cons r l ih =>
    cases l with
    | nil => simp [points]
    | cons y l =>
      have h : r.End = y.Start := (List.chain'_cons.mp hc).1
      rw [points_cons_cons hc, List.mem_cons, ih (contiguous_tail hc)]
      constructor
      · rintro (rfl | ⟨x, hx, hx2⟩)
        · exact ⟨r, List.mem_cons_self _ _, Or.inl rfl⟩
        · exact ⟨x, List.mem_cons_of_mem _ hx, hx2⟩
      · rintro ⟨x, hx, hx2⟩
        rcases List.mem_cons.mp hx with rfl | hx
        · rcases hx2 with rfl | rfl
          · exact Or.inl rfl
          · exact Or.inr ⟨y, List.mem_cons_self _ _, Or.inl h⟩
        · exact Or.inr ⟨x, hx, hx2⟩

theorem points_sorted {rates : List Rate} (hc : Contiguous rates) (hp : Proper rates) :
    (points rates).Sorted (fun x y => x < y) := by
  induction rates with
  | nil => simp [points]
  | cons r l ih =>
    have hr : r.Start < r.End := hp r (List.mem_cons_self _ _)
    cases l with
    | nil => simp [points, hr]
    | cons y l =>
      have h : r.End = y.Start := (List.chain'_cons.mp hc).1
      rw [points_cons_cons hc]
      have h2 : points (y :: l) = y.Start :: (y :: l).map Rate.End := rfl
      have ih2 := ih (contiguous_tail hc) (proper_tail hp)
      rw [h2] at ih2 ⊢
      exact List.Sorted.cons (by omega) ih2

/-- Two strictly ascending lists with the same elements are equal. -/
theorem sorted_ext {l1 l2 : List Int} (h1 : l1.Sorted (fun x y => x < y))
    (h2 : l2.Sorted (fun x y => x < y)) (h : ∀ t, t ∈ l1 ↔ t ∈ l2) : l1 = l2 :=
  List.eq_of_perm_of_sorted ((List.perm_ext_iff_of_nodup h1.nodup h2.nodup).mpr h) h1 h2

/-- In a contiguous series of proper slots, the cumulative quantity increases over each slot
by the value of the slot. -/
theorem cumulative_slot {rates : List Rate} (hc : Contiguous rates) (hp : Proper rates) :
    ∀ x ∈ rates, cumulative rates x.End - cumulative rates x.Start = x.Value := by
  induction rates with
  | nil => simp
  | cons r l ih =>
    have hr : r.Start < r.End := hp r (List.mem_cons_self _ _)
    have hrest : ∀ x ∈ l, r.End ≤ x.Start := end_le_start_of_mem hc hp
    intro x hx
    rw [cumulative_cons, cumulative_cons]
    rcases List.mem_cons.mp hx with rfl | hx
    · rw [cumulative_eq_zero (t := x.End) (proper_tail hp) (fun z hz => hrest z hz),
        cumulative_eq_zero (t := x.Start) (proper_tail hp)
          (fun z hz => by have := hrest z hz; omega),
        elapsed_of_ge hr (le_refl _), elapsed_of_le hr (le_refl _)]
      ring
    · have hx1 := hrest x hx
      have hx2 : x.Start < x.End := hp x (List.mem_cons_of_mem _ hx)
      rw [elapsed_of_ge hr (by omega), elapsed_of_ge hr hx1]
      have := ih (contiguous_tail hc) (proper_tail hp) x hx
      linarith

/-- A contiguous series of proper slots rebuilt on its own boundaries is unchanged. -/
theorem aligned_points {rates : List Rate} (hc : Contiguous rates) (hp : Proper rates) :
    aligned rates (points rates) = rates := by
  have hs := points_sorted hc hp
  have hval : ∀ x ∈ rates, interpolateCumulative rates x.Start x.End = x.Value := by
    intro x hx
    have hpair : (x.Start, x.End) ∈ slotPairs (points rates) := by
      rw [slotPairs_points hc]
      exact List.mem_map_of_mem (fun r : Rate => (r.Start, r.End)) hx
    rw [interpolateCumulative_eq_cumulative hc hp (hp x hx), cumulative_slot hc hp x hx]
    intro r hr
    exact ⟨slotPairs_separate hs _ hpair _ ((mem_points hc _).mpr ⟨r, hr, Or.inl rfl⟩),
      slotPairs_separate hs _ hpair _ ((mem_points hc _).mpr ⟨r, hr, Or.inr rfl⟩)⟩
  unfold aligned
  rw [slotPairs_points hc, bounds, List.map_map]
  calc rates.map _ = rates.map id := List.map_congr_left (fun x hx => by
        simp only [Function.comp_apply, id]
        rw [hval x hx])
    _ = rates := List.map_id _

theorem contiguous_iff_bounds (rates : List Rate) :
    Contiguous rates ↔ (bounds rates).Chain' (fun p q => p.2 = q.1) := by
  unfold Contiguous bounds
  rw [List.chain'_map]

theorem proper_iff_bounds (rates : List Rate) :
    Proper rates ↔ ∀ p ∈ bounds rates, p.1 < p.2 := by
  simp [Proper, bounds]

theorem points_eq_of_bounds {a b : List Rate} (h : bounds a = bounds b) :
    points a = points b := by
  have hEnd : ∀ l : List Rate, l.map Rate.End = (bounds l).map Prod.snd := by
    intro l; simp [bounds, Function.comp_def]
  cases a with
  | nil =>
    cases b with
    | nil => rfl
    | cons y l => simp [bounds] at h
  | cons x l =>
    cases b with
    | nil => simp [bounds] at h
    | cons y l2 =>
      have h1 : x.Start = y.Start := by
        simp [bounds] at h; exact h.1.1
      simp only [points]
      rw [hEnd, hEnd, h, h1]

theorem sortedSlots_eq_points {a b : List Rate} (hsame : bounds a = bounds b)
    (hc : Contiguous a) (hp : Proper a) : sortedSlots a b = points a := by
  have hcb : Contiguous b := by
    rw [contiguous_iff_bounds, ← hsame, ← contiguous_iff_bounds]; exact hc
  apply sorted_ext (sortedSlots_sorted a b) (points_sorted hc hp)
  intro t
  rw [mem_sortedSlots, mem_boundaries]
  constructor
  · rintro ⟨r, hr, h⟩
    rcases List.mem_append.mp hr with hr | hr
    · exact (mem_points hc t).mpr ⟨r, hr, h⟩
    · rw [points_eq_of_bounds hsame]
      exact (mem_points hcb t).mpr ⟨r, hr, h⟩
  · intro ht
    obtain ⟨r, hr, h⟩ := (mem_points hc t).mp ht
    exact ⟨r, List.mem_append_left _ hr, h⟩

/-- C9 as stated fails: two series on the same slots `[0, 1)`, `[2, 3)` (same length, same
start and end at every index, `Start < End`, sorted ascending) are both changed by
`alignRates`, which adds the slot `[1, 2)` of the gap. -/
theorem alignRates_shared_gap_changes :
    gapSeries ≠ [] ∧ gapSeries2 ≠ [] ∧ bounds gapSeries = bounds gapSeries2 ∧
      Proper gapSeries ∧ gapSeries.Sorted (fun x y => x.Start < y.Start) ∧
      (alignRates gapSeries gapSeries2).1 = [⟨0, 1, 1⟩, ⟨1, 2, 1⟩, ⟨2, 3, 1⟩] ∧
      (alignRates gapSeries gapSeries2).2 = [⟨0, 1, 5⟩, ⟨1, 2, 6⟩, ⟨2, 3, 7⟩] ∧
      (alignRates gapSeries gapSeries2).1 ≠ gapSeries ∧
      (alignRates gapSeries gapSeries2).2 ≠ gapSeries2 := by
  refine ⟨by decide, by decide, by decide, by unfold Proper; decide, by decide!, by decide!,
    by decide!, by decide!, by decide!⟩

/-- C9, amended: two non-empty series that share identical slot boundaries (same length, same
start and end at every index), with `Start < End` in every slot and each slot ending where
the next one starts, are both left unchanged by `alignRates`. -/
theorem alignRates_shared_contiguous (a b : List Rate) (ha : a ≠ []) (hb : b ≠ [])
    (hsame : bounds a = bounds b) (hp : Proper a) (hc : Contiguous a) :
    alignRates a b = (a, b) := by
  have hcb : Contiguous b := by
    rw [contiguous_iff_bounds, ← hsame, ← contiguous_iff_bounds]; exact hc
  have hpb : Proper b := by
    rw [proper_iff_bounds, ← hsame, ← proper_iff_bounds]; exact hp
  rw [alignRates_of_ne_nil ha hb, sortedSlots_eq_points hsame hc hp, aligned_points hc hp,
    points_eq_of_bounds hsame, aligned_points hcb hpb]

/-- The amended C9 at two series on the slots `[0, 2)`, `[2, 3)`, `[3, 6)`. -/
theorem alignRates_shared_contiguous_witness :
    contiguousSeries ≠ [] ∧ contiguousSeries2 ≠ [] ∧
      bounds contiguousSeries = bounds contiguousSeries2 ∧ Proper contiguousSeries ∧
      Contiguous contiguousSeries ∧
      alignRates contiguousSeries contiguousSeries2 = (contiguousSeries, contiguousSeries2) :=
  ⟨by decide, by decide, by decide, by unfold Proper; decide, by simp [Contiguous, contiguousSeries],
    alignRates_shared_contiguous contiguousSeries contiguousSeries2 (by decide) (by decide)
      (by decide) (by unfold Proper; decide) (by simp [Contiguous, contiguousSeries])⟩

/-- The hypotheses and the conclusion of C1 at the series `[0, 2) @ 4`, `[2, 3) @ 5`,
`[3, 6) @ 1` aligned with `[1, 4) @ 6`, `[5, 9) @ 2`. -/
theorem alignRates_preserves_total_witness :
    Contiguous contiguousSeries ∧ Proper contiguousSeries ∧ otherSeries ≠ [] ∧
      total (alignRates contiguousSeries otherSeries).1 = total contiguousSeries :=
  ⟨by simp [Contiguous, contiguousSeries], by unfold Proper; decide, by decide,
    alignRates_preserves_total contiguousSeries otherSeries (by simp [Contiguous, contiguousSeries])
      (by unfold Proper; decide) (by decide)⟩

/-- C10 as stated fails: a series with `Start < End` in every slot, sorted ascending by start,
aligned against itself, gains the value given to the slot of a gap, and loses part of the value
of a slot that overlaps the previous one. -/
theorem alignRates_self_total_changes :
    (gapSeries ≠ [] ∧ Proper gapSeries ∧ gapSeries.Sorted (fun x y => x.Start < y.Start) ∧
        total gapSeries = 2 ∧ total (alignRates gapSeries gapSeries).1 = 3 ∧
        total (alignRates gapSeries gapSeries).2 = 3) ∧
      (overlapSeries ≠ [] ∧ Proper overlapSeries ∧
        overlapSeries.Sorted (fun x y => x.Start < y.Start) ∧
        total overlapSeries = 2 ∧ total (alignRates overlapSeries overlapSeries).1 = 3 / 2 ∧
        total (alignRates overlapSeries overlapSeries).2 = 3 / 2) := by
  refine ⟨⟨by decide, by unfold Proper; decide, by decide!, by decide!, by decide!,
    by decide!⟩, ⟨by decide, by unfold Proper; decide, by decide!, by decide!, by decide!,
    by decide!⟩⟩

/-- C10, amended: for every non-empty series with `Start < End` in every slot and each slot
ending where the next one starts, aligning the series against itself keeps the sum of the
values. -/
theorem alignRates_self_preserves_total (a : List Rate) (ha : a ≠ []) (hp : Proper a)
    (hc : Contiguous a) :
    total (alignRates a a).1 = total a ∧ total (alignRates a a).2 = total a := by
  have h1 : total (aligned a (sortedSlots a a)) = total a :=
    total_aligned_eq ha hc hp (sortedSlots_sorted a a) boundaries_mem_left
  rw [alignRates_of_ne_nil ha ha]
  exact ⟨h1, h1⟩

/-- The amended C10 at the series `[0, 2) @ 4`, `[2, 3) @ 5`, `[3, 6) @ 1`. -/
theorem alignRates_self_preserves_total_witness :
    contiguousSeries ≠ [] ∧ Proper contiguousSeries ∧ Contiguous contiguousSeries ∧
      total (alignRates contiguousSeries contiguousSeries).1 = total contiguousSeries ∧
      total (alignRates contiguousSeries contiguousSeries).2 = total contiguousSeries :=
  ⟨by decide, by unfold Proper; decide, by simp [Contiguous, contiguousSeries],
    alignRates_self_preserves_total contiguousSeries (by decide) (by unfold Proper; decide)
      (by simp [Contiguous, contiguousSeries])⟩

/-! ## Effective forecasted tariffs: the blended value of a slot -/

theorem Seconds_nonneg {d : Int} (h : 0 ≤ d) : 0 ≤ Seconds d := by
  unfold Seconds
  exact div_nonneg (by exact_mod_cast h) (by norm_num)

theorem gapFallback_nonneg {rates : List Rate} (hv : ∀ r ∈ rates, 0 ≤ r.Value)
    {start stop : Int} (h : start ≤ stop) : 0 ≤ gapFallback rates start stop := by
  induction rates with
  | nil => simp [gapFallback]
  | cons prev l ih =>
    cases l with
    | nil => simp [gapFallback]
    | cons cur rest =>
      unfold gapFallback
      split
      · rename_i hcond
        have h1 := hv prev (List.mem_cons_self _ _)
        have h2 := hv cur (List.mem_cons_of_mem _ (List.mem_cons_self _ _))
        exact mul_nonneg (div_nonneg (add_nonneg h1 h2) (by norm_num))
          (div_nonneg (Seconds_nonneg (by omega)) hcond.2.2.le)
      · exact ih (fun r hr => hv r (List.mem_cons_of_mem _ hr))

theorem interpolateCumulative_nonneg {rates : List Rate} (hv : ∀ r ∈ rates, 0 ≤ r.Value)
    {start stop : Int} (h : start ≤ stop) : 0 ≤ interpolateCumulative rates start stop := by
  unfold interpolateCumulative
  cases hfind : rates.find? (covers start stop) with
  | none => exact gapFallback_nonneg hv h
  | some r =>
    have hr : r ∈ rates := List.mem_of_find?_eq_some hfind
    simp only
    split
    · rename_i hpos
      exact mul_nonneg (hv r hr) (div_nonneg (Seconds_nonneg (by omega)) hpos.le)
    · exact le_refl _

/-- The slots of a series rebuilt by a real alignment are proper and, for non-negative input
values, carry non-negative values. -/
theorem aligned_proper_nonneg {rates : List Rate} (hv : ∀ r ∈ rates, 0 ≤ r.Value)
    {slots : List Int} (hs : slots.Sorted (fun x y => x < y)) :
    ∀ r ∈ aligned rates slots, r.Start < r.End ∧ 0 ≤ r.Value := by
  intro r hr
  obtain ⟨p, hp, rfl⟩ := List.mem_map.mp hr
  have hlt := slotPairs_lt hs p hp
  exact ⟨hlt, interpolateCumulative_nonneg hv hlt.le⟩

theorem effectiveTariffs_length (lp : Loadpoint) (gridRates forecastedGreen feedInRates : List Rate) :
    (effectiveTariffs lp gridRates forecastedGreen feedInRates).length =
      min gridRates.length (min forecastedGreen.length feedInRates.length) := by
  induction gridRates generalizing forecastedGreen feedInRates with
  | nil => simp [effectiveTariffs]
  | cons g gs ih =>
    cases forecastedGreen with
    | nil => simp [effectiveTariffs]
    | cons s ss =>
      cases feedInRates with
      | nil => simp [effectiveTariffs]
      | cons f fs =>
        simp only [effectiveTariffs, List.length_cons, ih]
        omega

theorem effectiveTariffs_getElem (lp : Loadpoint) (gridRates forecastedGreen feedInRates : List Rate)
    (i : Nat) (g s f : Rate) (hg : gridRates[i]? = some g) (hs : forecastedGreen[i]? = some s)
    (hf : feedInRates[i]? = some f) :
    (effectiveTariffs lp gridRates forecastedGreen feedInRates)[i]? =
      some (effectiveRate lp g s f) := by
  induction gridRates generalizing forecastedGreen feedInRates i with
  | nil => simp at hg
  | cons g0 gs ih =>
    cases forecastedGreen with
    | nil => simp at hs
    | cons s0 ss =>
      cases feedInRates with
      | nil => simp at hf
      | cons f0 fs =>
        cases i with
        | zero =>
          simp only [List.getElem?_cons_zero, Option.some.injEq] at hg hs hf
          subst hg hs hf
          simp [effectiveTariffs]
        | succ n =>
          simp only [List.getElem?_cons_succ] at hg hs hf
          simp only [effectiveTariffs, List.getElem?_cons_succ]
          exact ih ss fs n hg hs hf

/-- For a proper slot with a non-negative forecast value and a positive load power,
`proportionOfGreenPower` is the forecast value over the scaled power, limited to 1. -/
theorem proportionOfGreenPower_eq (lp : Loadpoint) (green : Rate)
    (hmax : 0 < lp.effectiveMaxPower) (hd : green.Start < green.End) (hv : 0 ≤ green.Value) :
    proportionOfGreenPower lp green =
      min 1 (green.Value /
        (lp.effectiveMaxPower * (Seconds (green.End - green.Start) / 3600))) := by
  have hsec : 0 < Seconds (green.End - green.Start) := (Seconds_pos_iff _).mpr (by omega)
  have hscaled : 0 < lp.effectiveMaxPower * (Seconds (green.End - green.Start) / 3600) :=
    mul_pos hmax (div_pos hsec (by norm_num))
  unfold proportionOfGreenPower
  rcases eq_or_lt_of_le hv with h0 | hpos
  · rw [← h0]
    simp
  · simp only [hpos, if_true, hscaled.ne', if_false]
    split
    · rename_i h1
      exact (min_eq_left h1.le).symm
    · rename_i h1
      exact (min_eq_right (not_lt.mp h1)).symm

/-- The slots of the first series of `alignRates` are proper whenever the second series has
a slot and the result has one. -/
theorem alignRates_snd_proper_nonneg {a b : List Rate} (ha : a ≠ [])
    (hv : ∀ r ∈ b, 0 ≤ r.Value) (hb : b ≠ []) :
    ∀ r ∈ (alignRates a b).2, r.Start < r.End ∧ 0 ≤ r.Value := by
  rw [alignRates_of_ne_nil ha hb]
  exact aligned_proper_nonneg hv (sortedSlots_sorted a b)

theorem alignRates_nil_left (b : List Rate) : alignRates [] b = ([], b) := by
  simp [alignRates]

/-- C5: when the solar-forecast, grid and feed-in providers are usable (bound, the feed-in
provider dynamic or static with a readable current value), the load's max power is positive
and every forecast energy is non-negative, the result is an effective tariff whose slot `i`,
for every index `i` of the three aligned series, has the start and end of the aligned grid
slot `i` and the value `gridRate[i] * (1 − g) + feedInRate[i] * g` with
`g = min(1, forecastSolarEnergy[i] / (loadMaxPower * (slotDurationSeconds / 3600)))`, the
duration being that of the aligned forecast slot `i` (line 155). -/
theorem calculate_blend (site : Site) (lp : Loadpoint) (sol grid fi : Tariff)
    (hs : site.GetTariff TariffUsage.Solar = some sol)
    (hg : site.GetTariff TariffUsage.Grid = some grid)
    (hf : site.GetTariff TariffUsage.FeedIn = some fi)
    (hfi : (fi.Typ = TariffType.PriceStatic ∧ fi.Now ≠ none) ∨
      fi.Typ = TariffType.PriceDynamic)
    (hmax : 0 < lp.effectiveMaxPower) (hnn : ∀ r ∈ sol.Forecast, 0 ≤ r.Value) :
    ∃ feedIn0 out : List Rate,
      feedInSeries (some fi) grid.Forecast = some feedIn0 ∧
      site.CalculateEffectiveForecastedTariffs lp = some (NewEffectiveTariff out) ∧
      out.length =
        min (alignRates (alignRates grid.Forecast sol.Forecast).1 feedIn0).1.length
          (min (alignRates grid.Forecast sol.Forecast).2.length
            (alignRates (alignRates grid.Forecast sol.Forecast).1 feedIn0).2.length) ∧
      ∀ (i : Nat) (gridRate forecastSolar feedInRate : Rate),
        (alignRates (alignRates grid.Forecast sol.Forecast).1 feedIn0).1[i]? = some gridRate →
        (alignRates grid.Forecast sol.Forecast).2[i]? = some forecastSolar →
        (alignRates (alignRates grid.Forecast sol.Forecast).1 feedIn0).2[i]? = some feedInRate →
        out[i]? = some ⟨gridRate.Start, gridRate.End,
          gridRate.Value *
              (1 - min 1 (forecastSolar.Value / (lp.effectiveMaxPower *
                (Seconds (forecastSolar.End - forecastSolar.Start) / 3600)))) +
            feedInRate.Value *
              min 1 (forecastSolar.Value / (lp.effectiveMaxPower *
                (Seconds (forecastSolar.End - forecastSolar.Start) / 3600)))⟩ := by
  obtain ⟨feedIn0, hfeed⟩ : ∃ feedIn0, feedInSeries (some fi) grid.Forecast = some feedIn0 := by
    rcases hfi with ⟨hst, hnow⟩ | hdyn
    · cases hn : fi.Now with
      | none => exact absurd hn hnow
      | some v =>
        exact ⟨grid.Forecast.map fun r => ⟨r.Start, r.End, v⟩,
          by simp [feedInSeries, hst, tariff.Now, hn]⟩
    · exact ⟨fi.Forecast, by simp [feedInSeries, hdyn, tariff.Forecast]⟩
  refine ⟨feedIn0, effectiveTariffs lp
    (alignRates (alignRates grid.Forecast sol.Forecast).1 feedIn0).1
    (alignRates grid.Forecast sol.Forecast).2
    (alignRates (alignRates grid.Forecast sol.Forecast).1 feedIn0).2, hfeed, ?_, ?_, ?_⟩
  · simp only [Site.CalculateEffectiveForecastedTariffs, hs, hg, hf, tariff.Forecast, hfeed]
  · exact effectiveTariffs_length _ _ _ _
  · intro i gridRate forecastSolar feedInRate h1 h2 h3
    rw [effectiveTariffs_getElem lp _ _ _ i _ _ _ h1 h2 h3]
    have hgne : grid.Forecast ≠ [] := by
      intro h0
      rw [h0, alignRates_nil_left] at h1
      simp only [alignRates_nil_left] at h1
      simp at h1
    have hsne : sol.Forecast ≠ [] := by
      intro h0
      have : (alignRates grid.Forecast sol.Forecast).2 = [] := by
        rw [h0]; simp [alignRates]
      rw [this] at h2
      simp at h2
    have hmem : forecastSolar ∈ (alignRates grid.Forecast sol.Forecast).2 :=
      List.getElem?_mem h2
    have hprop := alignRates_snd_proper_nonneg hgne hnn hsne forecastSolar hmem
    simp only [effectiveRate, proportionOfGreenPower_eq lp forecastSolar hmax hprop.1 hprop.2]

/-- C5 at a site with a grid series `[00:00-01:00 @ 0.30], [01:00-02:00 @ 0.25]`, a solar
forecast `[00:00-02:00 @ 500]`, a static feed-in price of 0.10 and a load of 1000 W. -/
theorem calculate_blend_witness :
    blendSite.GetTariff TariffUsage.Solar = some blendSolar ∧
      blendSite.GetTariff TariffUsage.Grid = some blendGrid ∧
      blendSite.GetTariff TariffUsage.FeedIn = some blendFeedIn ∧
      (blendFeedIn.Typ = TariffType.PriceStatic ∧ blendFeedIn.Now ≠ none) ∧
      (0 : ℚ) < (⟨1000⟩ : Loadpoint).effectiveMaxPower ∧
      (∀ r ∈ blendSolar.Forecast, 0 ≤ r.Value) ∧
      ∃ out : List Rate,
        blendSite.CalculateEffectiveForecastedTariffs ⟨1000⟩ = some (NewEffectiveTariff out) :=
  ⟨rfl, rfl, rfl, ⟨rfl, by simp [blendFeedIn]⟩, by norm_num, by simp [blendSolar],
    match calculate_blend blendSite ⟨1000⟩ blendSolar blendGrid blendFeedIn rfl rfl rfl
      (Or.inl ⟨rfl, by simp [blendFeedIn]⟩) (by norm_num) (by simp [blendSolar]) with
    | ⟨_, out, _, h, _⟩ => ⟨out, h⟩⟩

/-- The effective tariff of `blendSite` for a load of 1000 W: each hour has 250 of forecast
energy, hence a green proportion of 1/4. -/
theorem calculate_blendSite :
    blendSite.CalculateEffectiveForecastedTariffs ⟨1000⟩ =
      some (NewEffectiveTariff [⟨0, hour, 1 / 4⟩, ⟨hour, 2 * hour, 17 / 80⟩]) := by
  decide!

/-! ## Green share: zero-width bands and absent green power -/

/-- C11 as stated fails: with 300 W of green power and the zero-width band at 500 W, green power
is available (`max(0, pvPower) + max(0, batteryPower) > 0`) and `greenShare` returns 0,
not 1. -/
theorem greenShare_zero_width_below :
    0 < max 0 smallPvSite.pvPower + max 0 smallPvSite.batteryPower ∧
      smallPvSite.greenShare 500 500 = Float64.finite 0 ∧
      smallPvSite.greenShare 500 500 ≠ Float64.finite 1 := by
  refine ⟨by norm_num [smallPvSite], by decide!, by decide!⟩

/-- C11, amended: for every zero-width band (`powerTo = powerFrom`), `greenShare` returns 1 if
green power is left above `powerFrom`
(`max(0, max(0, pvPower) + max(0, batteryPower) − powerFrom) > 0`) and 0 otherwise. -/
theorem greenShare_zero_width (site : Site) (powerFrom powerTo : ℚ) (h : powerTo = powerFrom) :
    site.greenShare powerFrom powerTo =
      if 0 < max 0 (max 0 site.pvPower + max 0 site.batteryPower - powerFrom) then
        Float64.finite 1
      else Float64.finite 0 := by
  subst h
  simp [Site.greenShare, fdiv, Float64.IsNaN]

/-- The amended C11 at 1000 W of PV power and the zero-width band at 500 W. -/
theorem greenShare_zero_width_witness :
    (500 : ℚ) = 500 ∧ pvOnlySite.greenShare 500 500 = Float64.finite 1 :=
  ⟨rfl, (greenShare_zero_width pvOnlySite 500 500 rfl).trans (by norm_num [pvOnlySite])⟩

/-- C12: for every band of the contract (`powerTo ≥ powerFrom ≥ 0`), `greenShare` returns 0
when green power is 0 (`pvPower ≤ 0` and `batteryPower ≤ 0`); and it returns 1 when
`powerFrom = powerTo = 0` and green power is positive. -/
theorem greenShare_no_green (site : Site) (powerFrom powerTo : ℚ) :
    (0 ≤ powerFrom → powerFrom ≤ powerTo → site.pvPower ≤ 0 → site.batteryPower ≤ 0 →
        site.greenShare powerFrom powerTo = Float64.finite 0) ∧
      (0 < max 0 site.pvPower + max 0 site.batteryPower →
        site.greenShare 0 0 = Float64.finite 1) := by
  constructor
  · intro hfrom hto hpv hbat
    have hgreen : max 0 site.pvPower + max 0 site.batteryPower = 0 := by
      rw [max_eq_left hpv, max_eq_left hbat, add_zero]
    have havail : max 0 (max 0 site.pvPower + max 0 site.batteryPower - powerFrom) = 0 := by
      rw [hgreen, zero_sub]
      exact max_eq_left (neg_nonpos.mpr hfrom)
    unfold Site.greenShare
    simp only [havail]
    rcases eq_or_lt_of_le hto with h | h
    · subst h
      simp [fdiv, Float64.IsNaN]
    · have hp : 0 < powerTo - powerFrom := sub_pos.mpr h
      simp [fdiv, Float64.IsNaN, hp.ne', min_eq_left hp.le]
  · intro hpos
    simp [Site.greenShare, fdiv, Float64.IsNaN, hpos]

/-- C12 without green power on the band `[500, 1500)`, and with 1000 W of PV power on the
band at 0. -/
theorem greenShare_no_green_witness :
    ((0 : ℚ) ≤ 500 ∧ (500 : ℚ) ≤ 1500 ∧ darkSite.pvPower ≤ 0 ∧ darkSite.batteryPower ≤ 0 ∧
        darkSite.greenShare 500 1500 = Float64.finite 0) ∧
      (0 < max 0 pvOnlySite.pvPower + max 0 pvOnlySite.batteryPower ∧
        pvOnlySite.greenShare 0 0 = Float64.finite 1) :=
  ⟨⟨by norm_num, by norm_num, by norm_num [darkSite], by norm_num [darkSite],
      (greenShare_no_green darkSite 500 1500).1 (by norm_num) (by norm_num)
        (by norm_num [darkSite]) (by norm_num [darkSite])⟩,
    ⟨by norm_num [pvOnlySite],
      (greenShare_no_green pvOnlySite 0 0).2 (by norm_num [pvOnlySite])⟩⟩

/-! ## Effective forecasted tariffs: degenerate slots and the three series -/

theorem calculate_eq_alignThree (site : Site) (lp : Loadpoint) (sol grid : Tariff)
    (feedInRates : List Rate) (hs : site.GetTariff TariffUsage.Solar = some sol)
    (hg : site.GetTariff TariffUsage.Grid = some grid)
    (hf : feedInSeries (site.GetTariff TariffUsage.FeedIn) grid.Forecast = some feedInRates) :
    site.CalculateEffectiveForecastedTariffs lp =
      some (NewEffectiveTariff (effectiveTariffs lp
        (alignThree grid.Forecast sol.Forecast feedInRates).1
        (alignThree grid.Forecast sol.Forecast feedInRates).2.1
        (alignThree grid.Forecast sol.Forecast feedInRates).2.2)) := by
  simp only [Site.CalculateEffectiveForecastedTariffs, hs, hg, tariff.Forecast, hf, alignThree]

/-- C13 as stated fails: with a load max power of 0 the power ceiling of every slot is 0, the
forecast energy of 250 gives a green proportion of 1, and the blended values are the feed-in
rate 0.10, not the grid rates 0.30 and 0.25. -/
theorem calculate_zero_max_power :
    (⟨0⟩ : Loadpoint).effectiveMaxPower * (Seconds (hour - 0) / 3600) ≤ 0 ∧
      (alignThree blendGrid.Forecast blendSolar.Forecast
          [⟨0, hour, 1 / 10⟩, ⟨hour, 2 * hour, 1 / 10⟩]).1 =
        [⟨0, hour, 3 / 10⟩, ⟨hour, 2 * hour, 1 / 4⟩] ∧
      proportionOfGreenPower ⟨0⟩ ⟨0, hour, 250⟩ = 1 ∧
      blendSite.CalculateEffectiveForecastedTariffs ⟨0⟩ =
        some (NewEffectiveTariff [⟨0, hour, 1 / 10⟩, ⟨hour, 2 * hour, 1 / 10⟩]) := by
  refine ⟨by norm_num, by decide!, by decide!, by decide!⟩

/-- C13, amended: in the loop of `CalculateEffectiveForecastedTariffs`, a slot whose forecast
energy is not positive has a green proportion of 0 and the grid rate as blended value; a slot
with a positive forecast energy and a power ceiling
`loadMaxPower * (slotDurationSeconds / 3600)` of 0 has a green proportion of 1 and the feed-in
rate as blended value. -/
theorem effectiveTariffs_degenerate (lp : Loadpoint)
    (gridRates forecastedGreen feedInRates : List Rate) (i : Nat)
    (gridRate forecastSolar feedInRate : Rate) (hg : gridRates[i]? = some gridRate)
    (hs : forecastedGreen[i]? = some forecastSolar)
    (hf : feedInRates[i]? = some feedInRate) :
    (forecastSolar.Value ≤ 0 →
        proportionOfGreenPower lp forecastSolar = 0 ∧
          (effectiveTariffs lp gridRates forecastedGreen feedInRates)[i]? =
            some ⟨gridRate.Start, gridRate.End, gridRate.Value⟩) ∧
      (0 < forecastSolar.Value →
        lp.effectiveMaxPower *
            (Seconds (forecastSolar.End - forecastSolar.Start) / 3600) = 0 →
        proportionOfGreenPower lp forecastSolar = 1 ∧
          (effectiveTariffs lp gridRates forecastedGreen feedInRates)[i]? =
            some ⟨gridRate.Start, gridRate.End, feedInRate.Value⟩) := by
  rw [effectiveTariffs_getElem lp _ _ _ i _ _ _ hg hs hf]
  constructor
  · intro hv
    have hp : proportionOfGreenPower lp forecastSolar = 0 := by
      simp [proportionOfGreenPower, not_lt.mpr hv]
    refine ⟨hp, ?_⟩
    simp [effectiveRate, hp]
  · intro hv hz
    have hp : proportionOfGreenPower lp forecastSolar = 1 := by
      simp only [proportionOfGreenPower, hv, if_true, hz]
    refine ⟨hp, ?_⟩
    simp [effectiveRate, hp]

/-- The amended C13 at one slot `[00:00-01:00)` with a grid rate of 0.30 and a feed-in rate
of 0.10: without forecast energy, and with a forecast energy of 250 and a load max power
of 0. -/
theorem effectiveTariffs_degenerate_witness :
    ((0 : ℚ) ≤ 0 ∧
        (effectiveTariffs ⟨1000⟩ [⟨0, hour, 3 / 10⟩] [⟨0, hour, 0⟩] [⟨0, hour, 1 / 10⟩])[0]? =
          some ⟨0, hour, 3 / 10⟩) ∧
      ((0 : ℚ) < 250 ∧ (0 : ℚ) * (Seconds (hour - 0) / 3600) = 0 ∧
        (effectiveTariffs ⟨0⟩ [⟨0, hour, 3 / 10⟩] [⟨0, hour, 250⟩] [⟨0, hour, 1 / 10⟩])[0]? =
          some ⟨0, hour, 1 / 10⟩) :=
  ⟨⟨le_refl _,
      ((effectiveTariffs_degenerate ⟨1000⟩ [⟨0, hour, 3 / 10⟩] [⟨0, hour, 0⟩]
        [⟨0, hour, 1 / 10⟩] 0 ⟨0, hour, 3 / 10⟩ ⟨0, hour, 0⟩ ⟨0, hour, 1 / 10⟩ rfl rfl rfl).1
          (le_refl _)).2⟩,
    ⟨by norm_num, by norm_num,
      ((effectiveTariffs_degenerate ⟨0⟩ [⟨0, hour, 3 / 10⟩] [⟨0, hour, 250⟩]
        [⟨0, hour, 1 / 10⟩] 0 ⟨0, hour, 3 / 10⟩ ⟨0, hour, 250⟩ ⟨0, hour, 1 / 10⟩ rfl rfl rfl).2
          (by norm_num) (by norm_num)).2⟩⟩

/-- C14 at a dynamic feed-in series with a boundary of its own: after the two calls of
`alignRates` the grid and feed-in series have the slots `[00:00-01:00)`, `[01:00-02:00)` and
the solar forecast still has the single slot `[00:00-02:00)`; the result has one slot,
`[00:00-01:00)`, blended with the forecast energy and the duration of `[00:00-02:00)`. -/
theorem alignThree_dynamic_feedIn :
    alignThree [⟨0, 2 * hour, 3 / 10⟩] [⟨0, 2 * hour, 500⟩]
        [⟨0, hour, 1 / 10⟩, ⟨hour, 2 * hour, 3 / 25⟩] =
      ([⟨0, hour, 3 / 20⟩, ⟨hour, 2 * hour, 3 / 20⟩], [⟨0, 2 * hour, 500⟩],
        [⟨0, hour, 1 / 10⟩, ⟨hour, 2 * hour, 3 / 25⟩]) ∧
      dynamicFeedInSite.CalculateEffectiveForecastedTariffs ⟨1000⟩ =
        some (NewEffectiveTariff [⟨0, hour, 11 / 80⟩]) := by
  refine ⟨by decide!, by decide!⟩

/-- C15 at a grid series with one slot of two hours and a solar forecast with two slots of
one hour: the static feed-in price 0.10 is laid on the slot of two hours and then halved by
the second call of `alignRates`, so every output slot is blended with a feed-in rate of
0.05. -/
theorem alignThree_static_feedIn :
    feedInSeries (coarseGridSite.GetTariff TariffUsage.FeedIn) [⟨0, 2 * hour, 3 / 10⟩] =
        some [⟨0, 2 * hour, 1 / 10⟩] ∧
      (alignThree [⟨0, 2 * hour, 3 / 10⟩] [⟨0, hour, 250⟩, ⟨hour, 2 * hour, 250⟩]
          [⟨0, 2 * hour, 1 / 10⟩]).2.2 =
        [⟨0, hour, 1 / 20⟩, ⟨hour, 2 * hour, 1 / 20⟩] ∧
      coarseGridSite.CalculateEffectiveForecastedTariffs ⟨1000⟩ =
        some (NewEffectiveTariff [⟨0, hour, 1 / 8⟩, ⟨hour, 2 * hour, 1 / 8⟩]) := by
  refine ⟨by decide!, by decide!, by decide!⟩

/-- C16 at a static feed-in provider whose current value cannot be read: the result is an
effective tariff without any rate, not the default tariff of the site. -/
theorem calculate_unreadable_static_feedIn :
    unreadableFeedInSite.CalculateEffectiveForecastedTariffs ⟨1000⟩ =
        some (NewEffectiveTariff []) ∧
      unreadableFeedInSite.plannerTariff = some (ApiTariff.provider defaultTariff) ∧
      unreadableFeedInSite.CalculateEffectiveForecastedTariffs ⟨1000⟩ ≠
        unreadableFeedInSite.plannerTariff := by
  refine ⟨by decide!, by decide!, by decide!⟩

theorem alignRates_nil_right (a : List Rate) : alignRates a [] = (a, []) := by
  simp [alignRates]

theorem effectiveTariffs_nil_feedIn (lp : Loadpoint) (gridRates forecastedGreen : List Rate) :
    effectiveTariffs lp gridRates forecastedGreen [] = [] := by
  cases gridRates with
  | nil => rfl
  | cons g gs =>
    cases forecastedGreen with
    | nil => rfl
    | cons s ss => rfl

/-- Whatever the grid and solar series, a static feed-in provider whose current value cannot
be read gives an effective tariff without any rate. -/
theorem calculate_of_unreadable_static (site : Site) (lp : Loadpoint) (sol grid fi : Tariff)
    (hs : site.GetTariff TariffUsage.Solar = some sol)
    (hg : site.GetTariff TariffUsage.Grid = some grid)
    (hf : site.GetTariff TariffUsage.FeedIn = some fi)
    (hst : fi.Typ = TariffType.PriceStatic) (hnow : fi.Now = none) :
    site.CalculateEffectiveForecastedTariffs lp = some (NewEffectiveTariff []) := by
  have hfeed : feedInSeries (site.GetTariff TariffUsage.FeedIn) grid.Forecast = some [] := by
    simp [hf, feedInSeries, hst, tariff.Now, hnow]
  rw [calculate_eq_alignThree site lp sol grid [] hs hg hfeed]
  simp only [alignThree, alignRates_nil_right, effectiveTariffs_nil_feedIn]

/-! ## Solar details: the complete flags and the scale factor -/

theorem solarDetails_isSome (site : SiteEnergy) (env : Surroundings) {solar : List Rate}
    (h : solar ≠ []) : ∃ out, site.solarDetails env solar = some out := by
  unfold SiteEnergy.solarDetails
  rw [List.getLast?_eq_getLast _ h]
  exact ⟨_, rfl⟩

/-- C17 as stated fails: a forecast whose last slot is `[23:00-24:00)` of today reaches the end
of today (the end of its last slot is the end of the day), and `today.complete` is false. -/
theorem solarDetails_complete_last_hour :
    untilMidnight ≠ [] ∧
      noonSurroundings.AddDay noonSurroundings.BeginningOfDay ≤
        (untilMidnight.getLast (by decide)).End ∧
      (producingSite.solarDetails noonSurroundings untilMidnight).map
        (fun out => out.res.Today.Complete) = some false := by
  refine ⟨by decide, by decide, by decide!⟩

/-- C17, amended: for every non-empty solar-forecast series and every `now`, `solarDetails`
returns, and the complete flag of each day bucket (today, tomorrow, day after tomorrow) is
true iff the start of the last slot of the series is at or after the end of the bucket; in
particular `today.complete` is false whenever the last slot, with `Start ≤ End`, ends before
the end of today. -/
theorem solarDetails_complete (site : SiteEnergy) (env : Surroundings) (solar : List Rate)
    (h : solar ≠ []) :
    ∃ out, site.solarDetails env solar = some out ∧
      (out.res.Today.Complete = true ↔
        env.AddDay env.BeginningOfDay ≤ (solar.getLast h).Start) ∧
      (out.res.Tomorrow.Complete = true ↔
        env.AddDay (env.AddDay env.BeginningOfDay) ≤ (solar.getLast h).Start) ∧
      (out.res.DayAfterTomorrow.Complete = true ↔
        env.AddDay (env.AddDay (env.AddDay env.BeginningOfDay)) ≤ (solar.getLast h).Start) ∧
      ((solar.getLast h).Start ≤ (solar.getLast h).End →
        (solar.getLast h).End < env.AddDay env.BeginningOfDay →
        out.res.Today.Complete = false) := by
  unfold SiteEnergy.solarDetails
  rw [List.getLast?_eq_getLast _ h]
  refine ⟨_, rfl, ?_, ?_, ?_, ?_⟩
  · simp
  · simp
  · simp
  · intro h1 h2
    simp only [decide_eq_false_iff_not, not_not]
    omega

/-- The amended C17 at a forecast whose last slot starts at the end of tomorrow: today and
tomorrow are complete, the day after tomorrow is not. -/
theorem solarDetails_complete_witness :
    untilDayAfter ≠ [] ∧
      (producingSite.solarDetails noonSurroundings untilDayAfter).map
        (fun out => (out.res.Today.Complete, out.res.Tomorrow.Complete,
          out.res.DayAfterTomorrow.Complete)) = some (true, true, false) :=
  ⟨by decide,
    match solarDetails_complete producingSite noonSurroundings untilDayAfter (by decide) with
    | ⟨out, hout, h1, h2, h3, _⟩ => by
      rw [hout]
      have e1 : out.res.Today.Complete = true := h1.mpr (by decide)
      have e2 : out.res.Tomorrow.Complete = true := h2.mpr (by decide)
      have e3 : out.res.DayAfterTomorrow.Complete = false := by
        cases hc : out.res.DayAfterTomorrow.Complete with
        | false => rfl
        | true => exact absurd (h3.mp hc) (by decide)
      simp [e1, e2, e3]⟩

/-- C18 as stated fails: with 1 kWh produced and no accumulated forecast energy, the sum
`produced + accumulatedForecast` is above 0.5 and the scale factor is omitted. -/
theorem solarDetails_scale_without_forecast :
    untilMidnight ≠ [] ∧
      (producingSite.solarDetails noonSurroundings untilMidnight).map
        (fun out => (out.fcstEnergy.AccumulatedEnergy, out.res.Scale)) = some (0, none) ∧
      ¬ ((producingSite.pvEnergy.map meterEnergy.AccumulatedEnergy).sum + 0 ≤ (1 / 2 : ℚ)) := by
  refine ⟨by decide, by decide!, by decide!⟩

/-- C18, amended: `solarDetails` omits the scale factor when the accumulated forecast energy
is not positive or `produced + accumulatedForecast ≤ 0.5`, and otherwise publishes the scale
`produced / accumulatedForecast`; the accumulated forecast energy is the one read after the
update of the accumulator. -/
theorem solarDetails_scale (site : SiteEnergy) (env : Surroundings) (solar : List Rate)
    (h : solar ≠ []) :
    ∃ out, site.solarDetails env solar = some out ∧
      (out.fcstEnergy.AccumulatedEnergy ≤ 0 ∨
          (site.pvEnergy.map meterEnergy.AccumulatedEnergy).sum +
            out.fcstEnergy.AccumulatedEnergy ≤ 1 / 2 →
        out.res.Scale = none) ∧
      (0 < out.fcstEnergy.AccumulatedEnergy →
        1 / 2 < (site.pvEnergy.map meterEnergy.AccumulatedEnergy).sum +
          out.fcstEnergy.AccumulatedEnergy →
        out.res.Scale =
          some ((site.pvEnergy.map meterEnergy.AccumulatedEnergy).sum /
            out.fcstEnergy.AccumulatedEnergy)) := by
  unfold SiteEnergy.solarDetails
  rw [List.getLast?_eq_getLast _ h]
  refine ⟨_, rfl, ?_, ?_⟩
  · rintro (h1 | h1)
    · simp only [if_neg (not_lt.mpr h1)]
    · simp only [if_neg (not_lt.mpr h1)]
      split <;> rfl
  · intro h1 h2
    simp only [if_pos h1, if_pos h2]

/-- The amended C18 at a site that has produced 3 kWh and has accumulated 2 kWh of forecast
energy: the scale is 3/2. -/
theorem solarDetails_scale_witness :
    untilMidnight ≠ [] ∧
      (calibratedSite.solarDetails noonSurroundings untilMidnight).map
        (fun out => out.res.Scale) = some (some (3 / 2)) :=
  ⟨by decide,
    match solarDetails_scale calibratedSite noonSurroundings untilMidnight (by decide) with
    | ⟨out, hout, _, h2⟩ => by
      have hacc : (calibratedSite.solarDetails noonSurroundings untilMidnight).map
          (fun o => o.fcstEnergy.AccumulatedEnergy) = some 2 := by decide!
      rw [hout] at hacc ⊢
      simp only [Option.map_some', Option.some.injEq] at hacc ⊢
      have hs := h2 (by rw [hacc]; norm_num) (by rw [hacc]; norm_num [calibratedSite, meterEnergy.AccumulatedEnergy])
      rw [hs, hacc]
      norm_num [calibratedSite, meterEnergy.AccumulatedEnergy]⟩

/-! ## Rate alignment: divisions and fixed point -/

theorem gapFallbackDivisors_pos (rates : List Rate) (start stop : Int) :
    ∀ d ∈ gapFallbackDivisors rates start stop, 0 < d := by
  induction rates with
  | nil => simp [gapFallbackDivisors]
  | cons prev l ih =>
    cases l with
    | nil => simp [gapFallbackDivisors]
    | cons cur rest =>
      unfold gapFallbackDivisors
      split
      · rename_i hcond
        intro d hd
        rcases List.mem_cons.mp hd with rfl | hd
        · norm_num
        · rw [List.mem_singleton] at hd
          rw [hd]
          exact hcond.2.2
      · exact ih

theorem interpolateDivisors_pos (rates : List Rate) (start stop : Int) :
    ∀ d ∈ interpolateDivisors rates start stop, 0 < d := by
  unfold interpolateDivisors
  cases rates.find? (covers start stop) with
  | none => exact gapFallbackDivisors_pos rates start stop
  | some r =>
    simp only
    split
    · rename_i hpos
      intro d hd
      rw [List.mem_singleton] at hd
      rw [hd]
      exact hpos
    · simp

/-- C19 as stated fails: in the series with a slot of zero duration at 0 and the slot `[2, 3)`,
the sub-slot `[0, 2)` is filled by the gap fallback with the average of its two neighbours, so
the value 10 of the slot of zero duration gives it 11/2, where the value 0 gives 1/2. -/
theorem alignRates_zero_duration_in_gap :
    (alignRates zeroSlotSeries [⟨2, 3, 4⟩]).1 = [⟨0, 2, 11 / 2⟩, ⟨2, 3, 1⟩] ∧
      (alignRates zeroSlotSeries0 [⟨2, 3, 4⟩]).1 = [⟨0, 2, 1 / 2⟩, ⟨2, 3, 1⟩] := by
  refine ⟨by decide!, by decide!⟩

/-- C19, amended: `alignRates` never divides by zero: for every pair of input series, every
division performed while a sub-slot value is computed has a strictly positive divisor; the
source slot that covers a sub-slot always has a positive duration, and
`interpolateCumulative` gives 0 whenever its covering source slot has zero duration. -/
theorem alignRates_divisors_pos (a b : List Rate) :
    (∀ d ∈ alignDivisors a b, 0 < d) ∧
      (∀ p ∈ slotPairs (sortedSlots a b), ∀ (rates : List Rate) (r : Rate),
        rates.find? (covers p.1 p.2) = some r → r.Start < r.End) ∧
      ∀ (rates : List Rate) (start stop : Int) (r : Rate),
        rates.find? (covers start stop) = some r → r.Start = r.End →
        interpolateCumulative rates start stop = 0 := by
  refine ⟨?_, ?_, ?_⟩
  · intro d hd
    unfold alignDivisors at hd
    split at hd
    · simp at hd
    · obtain ⟨p, _, hp⟩ := List.mem_flatMap.mp hd
      rcases List.mem_append.mp hp with h | h
      · exact interpolateDivisors_pos a p.1 p.2 d h
      · exact interpolateDivisors_pos b p.1 p.2 d h
  · intro p hp rates r hfind
    have hlt := slotPairs_lt (sortedSlots_sorted a b) p hp
    have hcov : covers p.1 p.2 r = true := List.find?_some hfind
    have h1 : r.Start ≤ p.1 ∧ p.2 ≤ r.End := by
      simpa [covers] using hcov
    omega
  · intro rates start stop r hfind hzero
    unfold interpolateCumulative
    rw [hfind]
    have hz : ¬ 0 < Seconds (r.End - r.Start) := by
      rw [Seconds_pos_iff, hzero]; simp
    simp only [if_neg hz]

/-- The amended C19 at a series with a slot of zero duration and a gap, aligned with a series
of two overlapping slots: the sub-slots are `[0, 1)`, `[1, 2)`, `[2, 3)`; the eight divisions
performed divide by 2 (the average of the gap fallback), by the duration of the gap or of the
covering slot, all positive; the sub-slot `[2, 3)` of the first series is covered by the slot
`[2, 3)`, of positive duration; and the slot of zero duration, asked for the empty interval at
0, gives 0. -/
theorem alignRates_divisors_pos_witness :
    alignDivisors zeroSlotSeries overlapSeries =
        [2, Seconds 2, Seconds 2, 2, Seconds 2, Seconds 2, Seconds 1, Seconds 2] ∧
      ((0 : ℚ) < 2 ∧ 0 < Seconds 1 ∧ 0 < Seconds 2) ∧
      ((2, 3) ∈ slotPairs (sortedSlots zeroSlotSeries overlapSeries) ∧
        zeroSlotSeries.find? (covers 2 3) = some ⟨2, 3, 1⟩ ∧
        (⟨2, 3, 1⟩ : Rate).Start < (⟨2, 3, 1⟩ : Rate).End) ∧
      (zeroSlotSeries.find? (covers 0 0) = some ⟨0, 0, 10⟩ ∧
        (⟨0, 0, 10⟩ : Rate).Start = (⟨0, 0, 10⟩ : Rate).End ∧
        interpolateCumulative zeroSlotSeries 0 0 = 0) :=
  ⟨by decide!,
    ⟨(alignRates_divisors_pos zeroSlotSeries overlapSeries).1 2 (by decide!),
      (alignRates_divisors_pos zeroSlotSeries overlapSeries).1 (Seconds 1) (by decide!),
      (alignRates_divisors_pos zeroSlotSeries overlapSeries).1 (Seconds 2) (by decide!)⟩,
    ⟨by decide!, by decide!,
      (alignRates_divisors_pos zeroSlotSeries overlapSeries).2.1 (2, 3) (by decide!)
        zeroSlotSeries ⟨2, 3, 1⟩ (by decide!)⟩,
    ⟨by decide!, rfl,
      (alignRates_divisors_pos zeroSlotSeries overlapSeries).2.2 zeroSlotSeries 0 0
        ⟨0, 0, 10⟩ (by decide!) rfl⟩⟩

theorem aligned_proper (rates : List Rate) {slots : List Int}
    (hs : slots.Sorted (fun x y => x < y)) : Proper (aligned rates slots) := by
  intro r hr
  have hp : (r.Start, r.End) ∈ slotPairs slots := by
    rw [← aligned_bounds rates]
    exact List.mem_map_of_mem (fun r : Rate => (r.Start, r.End)) hr
  exact slotPairs_lt hs _ hp

theorem bounds_aligned (rates : List Rate) (slots : List Int) :
    bounds (aligned rates slots) = slotPairs slots :=
  aligned_bounds rates slots

/-- Two non-empty series on the same contiguous proper slots are left unchanged. -/
theorem alignRates_eq_of_bounds {a b : List Rate} (ha : a ≠ []) (hb : b ≠ [])
    (hsame : bounds a = bounds b) (hp : Proper a) (hc : Contiguous a) :
    alignRates a b = (a, b) := by
  have hcb : Contiguous b := by
    rw [contiguous_iff_bounds, ← hsame, ← contiguous_iff_bounds]; exact hc
  have hpb : Proper b := by
    rw [proper_iff_bounds, ← hsame, ← proper_iff_bounds]; exact hp
  rw [alignRates_of_ne_nil ha hb, sortedSlots_eq_points hsame hc hp, aligned_points hc hp,
    points_eq_of_bounds hsame, aligned_points hcb hpb]

/-- C20: for every pair of non-empty series, the output of `alignRates` is a fixed point:
`alignRates` applied to the two aligned series returns both unchanged. -/
theorem alignRates_fixed_point (a b : List Rate) (ha : a ≠ []) (hb : b ≠ []) :
    alignRates (alignRates a b).1 (alignRates a b).2 = alignRates a b := by
  rw [alignRates_of_ne_nil ha hb]
  have hsame : bounds (aligned a (sortedSlots a b)) = bounds (aligned b (sortedSlots a b)) := by
    rw [bounds_aligned, bounds_aligned]
  by_cases hne : aligned a (sortedSlots a b) = []
  · simp only [hne, alignRates_nil_left]
  · have hne2 : aligned b (sortedSlots a b) ≠ [] := by
      intro h0
      apply hne
      have hlen : (aligned a (sortedSlots a b)).length = (aligned b (sortedSlots a b)).length := by
        simp [aligned]
      rw [h0] at hlen
      exact List.length_eq_zero.mp hlen
    exact alignRates_eq_of_bounds hne hne2 hsame (aligned_proper a (sortedSlots_sorted a b))
      (aligned_chain a _)

/-- C20 at the series `[0, 1) @ 1`, `[2, 3) @ 1` and `[1, 4) @ 6`, `[5, 9) @ 2`. -/
theorem alignRates_fixed_point_witness :
    gapSeries ≠ [] ∧ otherSeries ≠ [] ∧
      alignRates (alignRates gapSeries otherSeries).1 (alignRates gapSeries otherSeries).2 =
        alignRates gapSeries otherSeries :=
  ⟨by decide, by decide, alignRates_fixed_point gapSeries otherSeries (by decide) (by decide)⟩

end SiteTariffs
